import Mathlib

/-!
Verification of the PDF-para-EXCEL extraction engine (src/main.py and
src/tratamento.py).

Modelling conventions:
* Python strings are lists of characters (`Str := List Char`).
* Python floats are IEEE-754 binary64 doubles, modelled as the exact rational
  values doubles store; `float(...)` parsing and float addition round their
  exact result to 53 significant bits, round to nearest with ties to even
  (`toDouble`). Overflow to infinity and subnormal underflow sit far outside
  every value these theorems touch and are not modelled. `float(...)` parsing
  is modelled on plain decimal literals (optional sign, digits, one optional
  dot); exponent, infinity, nan and underscore forms are omitted — no input of
  this program produces them.
* pandas DataFrames are lists of row records; `Series.idxmax` is the first
  index attaining the maximum among non-null entries, and raises when every
  entry is null.
* Regular expressions from the source are compiled by hand into character-list
  scanners with the same leftmost-match and greedy/lazy backtracking semantics.
-/

deriving instance DecidableEq for Except

namespace PdfExcel

/-- Strings are modelled as lists of characters. -/
abbrev Str := List Char

/-- Python whitespace (the regex class `\s` and `str.strip`), ASCII range. -/
def isPySpace (c : Char) : Bool :=
  c = ' ' || c = '\t' || c = '\n' || c = '\r' || c = '\x0b' || c = '\x0c'

/-- ASCII digit test, modelling the regex class `\d` on the ASCII inputs this
program handles. -/
def isDig (c : Char) : Bool :=
  c ∈ ['0', '1', '2', '3', '4', '5', '6', '7', '8', '9']

/-- Numeric value of a digit character. -/
def charVal (c : Char) : Nat := c.toNat - 48

/-- Digit character for a value below ten. -/
def digit10 (n : Nat) : Char :=
  match n with
  | 0 => '0' | 1 => '1' | 2 => '2' | 3 => '3' | 4 => '4'
  | 5 => '5' | 6 => '6' | 7 => '7' | 8 => '8' | _ => '9'

/-- Python `str.strip()`: drop leading and trailing whitespace. -/
def stripPy (cs : Str) : Str :=
  ((cs.dropWhile isPySpace).reverse.dropWhile isPySpace).reverse

/-- ASCII lower-casing of one character (`str.lower()` on the ASCII letters
this program compares; full-Unicode lowering is not needed for the compared
literals). -/
def lowerC (c : Char) : Char :=
  if 'A' ≤ c ∧ c ≤ 'Z' then Char.ofNat (c.toNat + 32) else c

/-- Does `cs` start with the literal `pat`? -/
def startsWithSeq : Str → Str → Bool
  | [], _ => true
  | _ :: _, [] => false
  | p :: ps, c :: cs => p = c && startsWithSeq ps cs

/-- Python substring containment (`pat in cs`). -/
def hasSubSeq (pat : Str) : Str → Bool
  | [] => startsWithSeq pat []
  | c :: cs => startsWithSeq pat (c :: cs) || hasSubSeq pat cs

/-- Python `s.replace(old, new, 1)`: replace the first occurrence only. -/
def replaceFirstSeq (pat repl : Str) : Str → Str
  | [] => []
  | c :: cs =>
    if startsWithSeq pat (c :: cs) then repl ++ (c :: cs).drop pat.length
    else c :: replaceFirstSeq pat repl cs

/-! ### Decimal digit strings

Little-endian digit expansion of a natural number, written with explicit fuel
so that it reduces inside the kernel; the fuel is irrelevant as soon as it is
at least the number itself. -/

/-- Little-endian base-10 digits, fuel-driven. -/
def revDigitsAux : Nat → Nat → List Nat
  | _, 0 => []
  | 0, _ + 1 => []
  | fuel + 1, n + 1 => ((n + 1) % 10) :: revDigitsAux fuel ((n + 1) / 10)

/-- Little-endian base-10 digits of `n` (empty for `0`). -/
def revDigits (n : Nat) : List Nat := revDigitsAux n n

/-- Value of a little-endian digit list. -/
def ofRevDigits : List Nat → Nat
  | [] => 0
  | d :: ds => d + 10 * ofRevDigits ds

/-- Value of a big-endian string of digit characters. -/
def valOfDigits (ds : Str) : Nat := ofRevDigits ((ds.map charVal).reverse)

/-! ### Python `format(x, ",.2f")` and the Brazilian money codec -/

/-- Insert a separator after every third character of a little-endian digit
list (thousands grouping seen from the right). -/
def group3 (sep : Char) : Str → Str
  | [] => []
  | [a] => [a]
  | [a, b] => [a, b]
  | [a, b, c] => [a, b, c]
  | a :: b :: c :: d :: rest => a :: b :: c :: sep :: group3 sep (d :: rest)

/-- Big-endian decimal digit characters of `n` (`"0"` for zero). -/
def intChars (n : Nat) : Str :=
  if n = 0 then ['0'] else ((revDigits n).map digit10).reverse

/-- Big-endian digits of `n` with `sep` thousands grouping. -/
def groupedChars (sep : Char) (n : Nat) : Str :=
  (group3 sep (intChars n).reverse).reverse

/-- Two-digit zero-padded rendering of `f < 100`. -/
def twoFrac (f : Nat) : Str := [digit10 (f / 10), digit10 (f % 10)]

/-- Floor of a rational, computed on the normalised representation. -/
def floorQ (q : ℚ) : ℤ := Int.fdiv q.num (q.den : ℤ)

/-- Round a rational to the nearest integer, ties to even — the rounding used
by Python `format` with two fractional digits (applied to `q * 100`). -/
def roundHalfEven (q : ℚ) : ℤ :=
  if q - (floorQ q : ℚ) < 1 / 2 then floorQ q
  else if 1 / 2 < q - (floorQ q : ℚ) then floorQ q + 1
  else if floorQ q % 2 = 0 then floorQ q else floorQ q + 1

/-! ### IEEE-754 binary64 rounding

Python floats are doubles. `toDouble` rounds an exact rational to the nearest
value with a 53-bit significand (ties to even), which is exactly the hardware
rounding throughout the normal finite range; the fuel `1100` of the exponent
searches covers that whole range (`|e| ≤ 1074`). -/

/-- Fuel-driven binary exponent of `1 ≤ q`: the `e` with `2 ^ e ≤ q < 2 ^ (e + 1)`. -/
def ilog2Up : Nat → ℚ → Nat
  | 0, _ => 0
  | fuel + 1, q => if q < 2 then 0 else ilog2Up fuel (q / 2) + 1

/-- Fuel-driven binary exponent of `0 < q < 1`: the `j ≥ 1` with
`1 ≤ q * 2 ^ j < 2`. -/
def ilog2Down : Nat → ℚ → Nat
  | 0, _ => 1
  | fuel + 1, q => if 1 ≤ q * 2 then 1 else ilog2Down fuel (q * 2) + 1

/-- Round a positive rational to the nearest binary64 double: scale by the
binary exponent into the 53-bit significand range, round half-even, scale
back. -/
def toDoublePos (q : ℚ) : ℚ :=
  if 1 ≤ q then
    if 52 ≤ ilog2Up 1100 q then
      (roundHalfEven (q / 2 ^ (ilog2Up 1100 q - 52)) : ℚ) * 2 ^ (ilog2Up 1100 q - 52)
    else
      (roundHalfEven (q * 2 ^ (52 - ilog2Up 1100 q)) : ℚ) / 2 ^ (52 - ilog2Up 1100 q)
  else
    (roundHalfEven (q * 2 ^ (52 + ilog2Down 1100 q)) : ℚ) / 2 ^ (52 + ilog2Down 1100 q)

/-- Round a rational to the nearest binary64 double (round to nearest, ties to
even). -/
def toDouble (q : ℚ) : ℚ :=
  if q = 0 then 0 else if q < 0 then -toDoublePos (-q) else toDoublePos q

/-- IEEE double addition: the exact sum of two doubles, rounded back to a
double. -/
def addD (x y : ℚ) : ℚ := toDouble (x + y)

/-- Python `f"{x:,.2f}"`: two fractional digits, comma thousands grouping and
dot decimal point. -/
def enFormat (q : ℚ) : Str :=
  (if roundHalfEven (q * 100) < 0 then ['-'] else []) ++
    groupedChars ',' ((roundHalfEven (q * 100)).natAbs / 100) ++
    '.' :: twoFrac ((roundHalfEven (q * 100)).natAbs % 100)

/-- The three-step separator swap `s.replace(",", "X").replace(".", ",").replace("X", ".")`
from `float_to_br` (src/main.py lines 38-41) and from the `Total` formatting
lambda (src/tratamento.py lines 123 and 139); each replacement is of a single
character, hence a character map. -/
def swapXmap (cs : Str) : Str :=
  ((cs.map fun c => if c = ',' then 'X' else c).map
      fun c => if c = '.' then ',' else c).map
    fun c => if c = 'X' then '.' else c

/-- Shared body of `float_to_br` (src/main.py) and the `Total` formatting
lambda (src/tratamento.py): format with `f"{x:,.2f}"`, then swap separators. -/
def fmtBR (q : ℚ) : Str := swapXmap (enFormat q)

/-- `float_to_br` (src/main.py lines 35-44); the `try/except` cannot fire on a
numeric argument, so the function is total. -/
def float_to_br (q : ℚ) : Str := fmtBR q

/-- Python `float(...)` on an unsigned decimal literal: digits, optionally a
dot and more digits, at least one digit overall. -/
def parseUnsignedDec (cs : Str) : Option ℚ :=
  let ip := cs.takeWhile isDig
  let rest := cs.dropWhile isDig
  match rest with
  | [] => if ip = [] then none else some ((valOfDigits ip : ℚ))
  | '.' :: rest2 =>
    let fp := rest2.takeWhile isDig
    let rest3 := rest2.dropWhile isDig
    if rest3 = [] ∧ (ip ≠ [] ∨ fp ≠ []) then
      some ((valOfDigits ip : ℚ) + (valOfDigits fp : ℚ) / (10 : ℚ) ^ fp.length)
    else none
  | _ => none

/-- Python `float(...)`: strip whitespace, optional sign, decimal literal; the
result is the literal's exact value rounded to the nearest double. -/
def pyFloat (cs : Str) : Option ℚ :=
  (match stripPy cs with
    | '+' :: r => parseUnsignedDec r
    | '-' :: r => (parseUnsignedDec r).map (fun q => -q)
    | r => parseUnsignedDec r).map toDouble

/-- `br_to_float` (src/main.py lines 25-33): `None` and `""` give `0.0`;
otherwise remove the dots, turn the commas into dots and parse, with any
parse failure giving `0.0`. -/
def br_to_float (s : Option Str) : ℚ :=
  match s with
  | none => 0
  | some cs =>
    if cs = [] then 0
    else
      (pyFloat ((cs.filter fun c => c ≠ '.').map
        fun c => if c = ',' then '.' else c)).getD 0

/-- `br_money_to_float` (src/tratamento.py lines 91-103): `None`, and strings
that are blank or unparsable after the separator rewrite, give `None`. -/
def br_money_to_float (x : Option Str) : Option ℚ :=
  match x with
  | none => none
  | some s0 =>
    let s := stripPy s0
    if s = [] then none
    else
      pyFloat ((s.filter fun c => c ≠ '.').map
        fun c => if c = ',' then '.' else c)

/-- The default money string `"0,00"`. -/
def zeroMoney : Str := ['0', ',', '0', '0']

/-! ### Generic scanners for the hand-compiled regular expressions -/

/-- Exact literal match; returns the remainder after the literal. -/
def litSeq : Str → Str → Option Str
  | [], cs => some cs
  | _ :: _, [] => none
  | p :: ps, c :: cs => if p = c then litSeq ps cs else none

/-- Case-insensitive (ASCII) literal match; returns the remainder. -/
def litCI : Str → Str → Option Str
  | [], cs => some cs
  | _ :: _, [] => none
  | p :: ps, c :: cs => if lowerC p = lowerC c then litCI ps cs else none

/-- Leftmost regex search: try the matcher at every start position, end of the
string included, and keep the first success (`re.search`). -/
def searchFirst {α : Type} (f : Str → Option α) : Str → Option α
  | [] => f []
  | c :: cs =>
    match f (c :: cs) with
    | some r => some r
    | none => searchFirst f cs

/-- Greedy `\s*` followed by a continuation, with backtracking: the longest
whitespace run whose continuation succeeds wins. -/
def wsThen {α : Type} (cont : Str → Option α) : Str → Option α
  | [] => cont []
  | c :: rest =>
    if isPySpace c then wsThen cont rest <|> cont (c :: rest) else cont (c :: rest)

/-- Greedy `\s+` followed by a continuation: at least one whitespace char. -/
def wsPlus {α : Type} (cont : Str → Option α) : Str → Option α
  | [] => none
  | c :: rest => if isPySpace c then wsThen cont rest else none

/-- Greedy optional element (`(...)?`): try with the element first, then
without it. -/
def optThen {α : Type} (m : Str → Option Str) (cont : Str → Option α) (cs : Str) : Option α :=
  match m cs with
  | some rest => cont rest <|> cont cs
  | none => cont cs

/-- Greedy `.{0,k}` (dot excludes the newline) followed by a continuation. -/
def dotsThen {α : Type} (cont : Str → Option α) : Nat → Str → Option α
  | 0, cs => cont cs
  | k + 1, cs =>
    (match cs with
      | c :: rest => if c = '\n' then none else dotsThen cont k rest
      | [] => none) <|> cont cs

/-- Lazy `[^\n\r]{0,k}?` followed by a continuation: shortest skip first. -/
def lazyDotsThen {α : Type} (cont : Str → Option α) : Nat → Str → Option α
  | 0, cs => cont cs
  | k + 1, cs =>
    cont cs <|>
      (match cs with
        | c :: rest => if c = '\n' || c = '\r' then none else lazyDotsThen cont k rest
        | [] => none)

/-- Exactly `n` digit characters; returns them and the remainder. -/
def takeDigs : Nat → Str → Option (Str × Str)
  | 0, cs => some ([], cs)
  | _ + 1, [] => none
  | n + 1, c :: cs =>
    if isDig c then (takeDigs n cs).map fun p => (c :: p.1, p.2) else none

/-- One fixed character. -/
def litChar (ch : Char) : Str → Option Str
  | c :: cs => if c = ch then some cs else none
  | [] => none

/-! ### Section locator (src/main.py lines 50-58, src/tratamento.py lines 14-26)

`HEADER_PATTERN = r"5\.\s*Comparativo dos Valores"`,
`NEXT_HEADER = r"\n\s*6\.\s*Observações|\Z"`; the section is the lazy span
between the first header occurrence and the first next-header occurrence or
the end of the text, stripped. -/

/-- Match `5\.\s*Comparativo dos Valores` at the start of `cs`; returns the
remainder after the header. -/
def matchHeaderAt (cs : Str) : Option Str :=
  match litSeq "5.".toList cs with
  | none => none
  | some r => litSeq "Comparativo dos Valores".toList (r.dropWhile isPySpace)

/-- Match `\n\s*6\.\s*Observações` at the start of `cs`. -/
def matchNext6 : Str → Option Str
  | '\n' :: r =>
    match litSeq "6.".toList (r.dropWhile isPySpace) with
    | none => none
    | some r2 => litSeq "Observações".toList (r2.dropWhile isPySpace)
  | _ => none

/-- Lazy capture `(.*?)` before `NEXT_HEADER|\Z`: the chars before the first
position where the next header matches (or all of them). -/
def captureUpToNext : Str → Str
  | [] => []
  | c :: cs => if (matchNext6 (c :: cs)).isSome then [] else c :: captureUpToNext cs

/-- The text of the `AttributeError` raised by
`(m.group(1) if m else "").strip()` when `m` matched through the bare `\Z`
alternative, so that `m.group(1)` is `None`. -/
def attrStripErr : Str := "'NoneType' object has no attribute 'strip'".toList

/-- `extract_section5_from_text` (src/main.py lines 55-58); also the search
half of `extract_section_text` (src/tratamento.py lines 19-26). Alternation
binds loosest, so the concatenated pattern compiles as
`(HEADER(.*?)\n\s*6\.\s*Observações) | \Z`: the left branch needs a section-6
header somewhere after the section-5 header, and when no position offers that
the search still succeeds on the bare `\Z` with `m.group(1) = None`, so the
`.strip()` call raises `AttributeError`. The header literal contains no second
`5`, so header matches never overlap and the left branch, when it matches at
all, matches first at the first header occurrence; its lazy capture ends at
the first following section-6 position. -/
def extract_section5_from_text (full : Str) : Except Str Str :=
  match searchFirst matchHeaderAt full with
  | none => .error attrStripErr
  | some rest =>
    if (searchFirst matchNext6 rest).isSome then .ok (stripPy (captureUpToNext rest))
    else .error attrStripErr

/-! ### Line normalizer (src/main.py lines 60-67, src/tratamento.py lines 28-34) -/

/-- Python `str.splitlines` restricted to `\n`, `\r\n` and `\r`; the exotic
terminators (`\v`, `\f`, `\x1c`-`\x1e`, `\x85`, U+2028/9) do not occur in the
texts this program consumes. -/
def splitLinesGo (cur : Str) : Str → List Str
  | [] => if cur = [] then [] else [cur.reverse]
  | '\r' :: '\n' :: rest => cur.reverse :: splitLinesGo [] rest
  | '\n' :: rest => cur.reverse :: splitLinesGo [] rest
  | '\r' :: rest => cur.reverse :: splitLinesGo [] rest
  | c :: rest => splitLinesGo (c :: cur) rest

/-- Split a text into lines. -/
def splitLinesPy (cs : Str) : List Str := splitLinesGo [] cs

/-- Collapse every whitespace run to a single space (`re.sub(r"\s+", " ", ln)`). -/
def collapseWsGo : Bool → Str → Str
  | _, [] => []
  | inRun, c :: rest =>
    if isPySpace c then
      if inRun then collapseWsGo true rest else ' ' :: collapseWsGo true rest
    else c :: collapseWsGo false rest

/-- Whitespace-run collapsing. -/
def collapseWs (cs : Str) : Str := collapseWsGo false cs

/-- `normalize_lines`: keep the non-blank lines, collapse whitespace, strip. -/
def normalize_lines (sec : Str) : List Str :=
  ((splitLinesPy sec).filter fun ln => stripPy ln ≠ []).map
    fun ln => stripPy (collapseWs ln)

/-! ### Money tokens: `NUM_PATTERN = r"(\d{1,3}(?:\.\d{3})*,\d{2})"` -/

/-- Match `(?:\.\d{3})*,\d{2}` with the regex's greedy backtracking (a longer
group run is preferred; on failure the run is shortened, but a comma can never
start where a dot stands, so the fallback is immediate). Returns token part and
remainder. -/
def matchGroupsComma : Str → Option (Str × Str)
  | '.' :: d1 :: d2 :: d3 :: rest =>
    if isDig d1 && isDig d2 && isDig d3 then
      match matchGroupsComma rest with
      | some (t, r) => some ('.' :: d1 :: d2 :: d3 :: t, r)
      | none => none
    else none
  | ',' :: d1 :: d2 :: rest =>
    if isDig d1 && isDig d2 then some ([',', d1, d2], rest) else none
  | _ => none

/-- Attempt the money pattern with exactly `k` leading digits. -/
def tryMoneyK (k : Nat) (cs : Str) : Option (Str × Str) :=
  match takeDigs k cs with
  | none => none
  | some (ds, rest) =>
    match matchGroupsComma rest with
    | some (t, r) => some (ds ++ t, r)
    | none => none

/-- Match `\d{1,3}(?:\.\d{3})*,\d{2}` at the start of `cs` (greedy: three
leading digits preferred). Returns the token and the remainder. -/
def matchMoneyAt (cs : Str) : Option (Str × Str) :=
  tryMoneyK 3 cs <|> tryMoneyK 2 cs <|> tryMoneyK 1 cs

/-- Non-overlapping leftmost money-token scan (`re.findall(NUM_PATTERN, rest)`),
with fuel (the string length suffices). -/
def findallMoneyAux : Nat → Str → List Str
  | 0, _ => []
  | _ + 1, [] => []
  | fuel + 1, c :: cs =>
    match matchMoneyAt (c :: cs) with
    | some (tok, r) => tok :: findallMoneyAux fuel r
    | none => findallMoneyAux fuel cs

/-- All money tokens of a line remainder, left to right. -/
def findallMoney (cs : Str) : List Str := findallMoneyAux cs.length cs

/-- The characters before the first money match
(`rest[:first_num_match.start()]`, the whole of `rest` when nothing matches). -/
def descrBeforeMoney : Str → Str
  | [] => []
  | c :: cs => if (matchMoneyAt (c :: cs)).isSome then [] else c :: descrBeforeMoney cs

/-! ### Row classifier and table builder
(`parse_table`, src/main.py lines 69-132 and src/tratamento.py lines 36-82) -/

/-- A row of the comparativo table, columns
`Data | Valores (R\x24) | Principal (70%) | Contratual (30%) | Sucumbência | Total`,
as built by src/main.py (money slots default to `"0,00"`). -/
structure Row where
  data : Option Str
  desc : Str
  principal : Str
  contratual : Str
  sucumbencia : Str
  total : Str
deriving DecidableEq

/-- A row as built by src/tratamento.py's `parse_table` (missing slots are
`None`). -/
structure RowT where
  data : Option Str
  desc : Str
  principal : Option Str
  contratual : Option Str
  sucumbencia : Option Str
  total : Option Str
deriving DecidableEq

/-- The literal `"Aguardando"`. -/
def agTok : Str := "Aguardando".toList

/-- The literal `"Aguardando "` removed from pending descriptions. -/
def agTokSp : Str := "Aguardando ".toList

/-- Header-noise test (rule 1 of the scan): the line lower-cases to a
`data valores` start or contains `(70%)` or `(30%)`. -/
def headerNoiseB (ln : Str) : Bool :=
  startsWithSeq ("data valores".toList) (ln.map lowerC) ||
    hasSubSeq ("(70%)".toList) ln || hasSubSeq ("(30%)".toList) ln

/-- `re.match(DATE_PATTERN, ln)`: the line starts with `\d{2}/\d{2}/\d{4}`. -/
def dateStartB : Str → Bool
  | a :: b :: '/' :: c :: d :: '/' :: e :: f :: g :: h :: _ =>
    isDig a && isDig b && isDig c && isDig d &&
      isDig e && isDig f && isDig g && isDig h
  | _ => false

/-- Continuation test of the pending-block inner loop: the next line starts
neither a dated entry nor a new pending block. -/
def pendCont (l : Str) : Bool := !(dateStartB l || startsWithSeq agTok l)

/-- Dated-entry row of src/main.py (lines 84-108): `date = ln.split()[0]`,
`rest = ln[len(date):].strip()`, money tokens fill the four slots left to
right, the rest keep `"0,00"`. -/
def datedRowOf (ln : Str) : Row :=
  let date := ln.takeWhile fun c => !isPySpace c
  let rest := stripPy (ln.drop date.length)
  let nums := findallMoney rest
  { data := some date
    desc := stripPy (descrBeforeMoney rest)
    principal := nums.getD 0 zeroMoney
    contratual := nums.getD 1 zeroMoney
    sucumbencia := nums.getD 2 zeroMoney
    total := nums.getD 3 zeroMoney }

/-- Dated-entry row of src/tratamento.py (lines 45-60): same splitting, with
`None` in the unfilled slots. -/
def datedRowTOf (ln : Str) : RowT :=
  let date := ln.takeWhile fun c => !isPySpace c
  let rest := stripPy (ln.drop date.length)
  let nums := findallMoney rest
  { data := some date
    desc := stripPy (descrBeforeMoney rest)
    principal := nums.get? 0
    contratual := nums.get? 1
    sucumbencia := nums.get? 2
    total := nums.get? 3 }

/-- Description of a pending block: the consumed lines joined by single
spaces, with the first occurrence of `"Aguardando "` removed
(`desc.replace("Aguardando ", "", 1)`). -/
def pendingDesc (ln : Str) (cont : List Str) : Str :=
  replaceFirstSeq agTokSp [] (ln ++ (cont.map fun l => ' ' :: l).flatten)

/-- Pending row of src/main.py (lines 111-122). -/
def pendingRowOf (ln : Str) (cont : List Str) : Row :=
  ⟨some agTok, pendingDesc ln cont, zeroMoney, zeroMoney, zeroMoney, zeroMoney⟩

/-- Fallback row of src/main.py (line 125). -/
def fallbackRowOf (ln : Str) : Row :=
  ⟨none, ln, zeroMoney, zeroMoney, zeroMoney, zeroMoney⟩

/-- The cursor loop of `parse_table` (src/main.py), with fuel (the number of
lines suffices, since the cursor strictly advances). -/
def parseTableAux : Nat → List Str → List Row
  | 0, _ => []
  | _ + 1, [] => []
  | fuel + 1, ln :: rest =>
    if headerNoiseB ln then parseTableAux fuel rest
    else if dateStartB ln then datedRowOf ln :: parseTableAux fuel rest
    else if startsWithSeq agTok ln then
      pendingRowOf ln (rest.takeWhile pendCont) ::
        parseTableAux fuel (rest.dropWhile pendCont)
    else fallbackRowOf ln :: parseTableAux fuel rest

/-- `parse_table` (src/main.py lines 69-132). -/
def parse_table (lines : List Str) : List Row := parseTableAux lines.length lines

/-- The cursor loop of src/tratamento.py's `parse_table`, with fuel. -/
def parseTableTAux : Nat → List Str → List RowT
  | 0, _ => []
  | _ + 1, [] => []
  | fuel + 1, ln :: rest =>
    if headerNoiseB ln then parseTableTAux fuel rest
    else if dateStartB ln then datedRowTOf ln :: parseTableTAux fuel rest
    else if startsWithSeq agTok ln then
      (⟨some agTok, pendingDesc ln (rest.takeWhile pendCont), none, none, none, none⟩ : RowT) ::
        parseTableTAux fuel (rest.dropWhile pendCont)
    else (⟨none, ln, none, none, none, none⟩ : RowT) :: parseTableTAux fuel rest

/-- `parse_table` (src/tratamento.py lines 36-82). -/
def parse_table_t (lines : List Str) : List RowT := parseTableTAux lines.length lines

/-- Which of the four scan rules consumed a chunk of lines. -/
inductive ScanRule where
  | header | dated | pending | fallback
deriving DecidableEq

/-- Instrumented version of the `parse_table` cursor loop: records, step by
step, the rule applied and the lines it consumed. -/
def scanStepsAux : Nat → List Str → List (ScanRule × List Str)
  | 0, _ => []
  | _ + 1, [] => []
  | fuel + 1, ln :: rest =>
    if headerNoiseB ln then (.header, [ln]) :: scanStepsAux fuel rest
    else if dateStartB ln then (.dated, [ln]) :: scanStepsAux fuel rest
    else if startsWithSeq agTok ln then
      (.pending, ln :: rest.takeWhile pendCont) ::
        scanStepsAux fuel (rest.dropWhile pendCont)
    else (.fallback, [ln]) :: scanStepsAux fuel rest

/-- The consumption trace of the `parse_table` scan. -/
def scanSteps (lines : List Str) : List (ScanRule × List Str) :=
  scanStepsAux lines.length lines

/-- The row a scan step emits (header steps emit none). -/
def stepRow : ScanRule × List Str → Option Row
  | (.header, _) => none
  | (.dated, [ln]) => some (datedRowOf ln)
  | (.pending, ln :: cont) => some (pendingRowOf ln cont)
  | (.fallback, [ln]) => some (fallbackRowOf ln)
  | _ => none

/-! ### Calendar dates and the most-recent selectors -/

/-- Gregorian leap year. -/
def leapYear (y : Nat) : Bool := y % 4 = 0 && (y % 100 ≠ 0 || y % 400 = 0)

/-- Days in a month. -/
def daysInMonth (m y : Nat) : Nat :=
  if m = 2 then (if leapYear y then 29 else 28)
  else if m = 4 || m = 6 || m = 9 || m = 11 then 30
  else 31

/-- Strict `pd.to_datetime(s, format="%d/%m/%Y", errors="coerce")` on one
value: the string must be exactly `dd/mm/yyyy` and a valid calendar date, and
the result is a sortable key (`y*10000 + m*100 + d`). The pandas `Timestamp`
range (1677-09-21 … 2262-04-11) is approximated by the whole years 1678-2261;
out-of-range dates coerce to `NaT`, i.e. `none`. -/
def parseDate10 : Str → Option Nat
  | [a, b, '/', c, d, '/', e, f, g, h] =>
    if isDig a && isDig b && isDig c && isDig d &&
        isDig e && isDig f && isDig g && isDig h then
      let dd := 10 * charVal a + charVal b
      let mm := 10 * charVal c + charVal d
      let yy := 1000 * charVal e + 100 * charVal f + 10 * charVal g + charVal h
      if 1 ≤ mm && mm ≤ 12 && 1 ≤ dd && dd ≤ daysInMonth mm yy &&
          1678 ≤ yy && yy ≤ 2261 then
        some (10000 * yy + 100 * mm + dd)
      else none
    else none
  | _ => none

/-- Date key of a row (`NaT` = `none` for missing or unparsable dates). -/
def dkeyRow (r : Row) : Option Nat := r.data.bind parseDate10

/-- Date key paired with its row, for candidate lists. -/
def dkeyPair (r : Row) : Option (Nat × Row) := (dkeyRow r).map fun k => (k, r)

/-- `df["Data"].str.match(DATE_PATTERN, na=False)`: prefix match on the date
column, `False` on missing values. -/
def patternRow (r : Row) : Bool :=
  match r.data with
  | some s => dateStartB s
  | none => false

/-- The pandas error message of `Series.idxmax` on an all-`NaT` series. -/
def argmaxErr : Str := "attempt to get argmax of an empty sequence".toList

/-- `Series.idxmax`: the first entry attaining the maximum key. -/
def pickIdxmax (c : Nat × Row) (cs : List (Nat × Row)) : Row :=
  (cs.foldl (fun b x => if b.1 < x.1 then x else b) c).2

/-- `filter_most_recent` (src/main.py lines 134-146): pattern-filter the date
column; an empty filtrate gives an empty frame; otherwise `idxmax` over the
coerced dates, which raises when every candidate coerced to `NaT`. -/
def filter_most_recent_m (rows : List Row) : Except Str (List Row) :=
  if (rows.filter patternRow).isEmpty then .ok []
  else
    match (rows.filter patternRow).filterMap dkeyPair with
    | [] => .error argmaxErr
    | c :: cs => .ok [pickIdxmax c cs]

/-- `filter_most_recent` (src/tratamento.py lines 84-89): coerce the whole
date column; if anything parsed, take `idxmax`, else an empty frame. -/
def filter_most_recent_t (rows : List Row) : List Row :=
  match rows.filterMap dkeyPair with
  | [] => []
  | c :: cs => [pickIdxmax c cs]

/-! ### Aggregation (src/main.py lines 148-169, src/tratamento.py lines 106-141) -/

/-- `processar_secao5_comparativo` (src/main.py lines 148-169). The locator's
`AttributeError` and the pandas `idxmax` exception both propagate; the float
sum is a double addition. -/
def processar_secao5_comparativo (texto : Str) : Except Str (Str × Str × Str) :=
  match extract_section5_from_text texto with
  | .error e => .error e
  | .ok sec =>
    if sec = [] then .ok (zeroMoney, zeroMoney, zeroMoney)
    else
      match filter_most_recent_m (parse_table (normalize_lines sec)) with
      | .error e => .error e
      | .ok [] => .ok (zeroMoney, zeroMoney, zeroMoney)
      | .ok (r :: _) =>
        .ok (if r.contratual = [] then zeroMoney else r.contratual,
          if r.sucumbencia = [] then zeroMoney else r.sucumbencia,
          float_to_br
            (addD (br_to_float (some (if r.contratual = [] then zeroMoney else r.contratual)))
              (br_to_float (some (if r.sucumbencia = [] then zeroMoney else r.sucumbencia)))))

/-- `df.fillna("0,00")` on a tratamento row (src/tratamento.py line 115; the
`Data` column is filled too). -/
def fillRowT (r : RowT) : Row :=
  ⟨some (r.data.getD zeroMoney), r.desc, r.principal.getD zeroMoney,
    r.contratual.getD zeroMoney, r.sucumbencia.getD zeroMoney, r.total.getD zeroMoney⟩

/-- The `Total` recomputation of src/tratamento.py lines 118-123 and 134-139:
`Total = format(contractual + succumbence)` with the unparsable amounts
defaulted to `0`. -/
def recomputeTotal (r : Row) : Row :=
  { r with
    total := fmtBR (addD ((br_money_to_float (some r.contratual)).getD 0)
      ((br_money_to_float (some r.sucumbencia)).getD 0)) }

/-- The full table surfaced by src/tratamento.py's `main` (lines 112-128):
parse, fill the missing values, recompute every `Total`. -/
def tratamentoTable (lines : List Str) : List Row :=
  ((parse_table_t lines).map fillRowT).map recomputeTotal

/-- The latest-record frame surfaced by src/tratamento.py's `main`
(lines 131-141): select the most recent row, recompute its `Total` again. -/
def tratamentoLatest (lines : List Str) : List Row :=
  (filter_most_recent_t (tratamentoTable lines)).map recomputeTotal

/-! ### Fallback field extractors and the batch entry point
(src/main.py lines 175-280) -/

/-- Character class `[^\n\r|]` of the party-name capture. -/
def nameClass (c : Char) : Bool := !(c = '\n' || c = '\r' || c = '|')

/-- The capture `([^\n\r|]+)`: at least one allowed character, greedy. -/
def capNamePart : Str → Option Str
  | [] => none
  | c :: cs => if nameClass c then some ((c :: cs).takeWhile nameClass) else none

/-- The optional separator `[:\-–]?`. -/
def matchSep : Str → Option Str
  | c :: cs => if c = ':' || c = '-' || c = '–' then some cs else none
  | [] => none

/-- Match `parte\s+autor(?:a|o)(?:\s*\(o\))?\s*[:\-–]?\s*([^\n\r|]+)`
(case-insensitive) at the start of `cs`; returns the capture. -/
def matchParteAt (cs : Str) : Option Str :=
  match litCI "parte".toList cs with
  | none => none
  | some r1 =>
    wsPlus (fun r2 =>
      match litCI "autor".toList r2 with
      | none => none
      | some r3 =>
        match r3 with
        | g :: r4 =>
          if lowerC g = 'a' || lowerC g = 'o' then
            optThen (wsThen (litCI "(o)".toList))
              (wsThen (optThen matchSep (wsThen capNamePart))) r4
          else none
        | [] => none) r1

/-- Match the process-number pattern
`\d{7}-\d{2}\.\d{4}\.\d\.\d{2}\.\d{4}` at the start of `cs`. -/
def matchProcAt (cs : Str) : Option Str := do
  let (d1, r1) ← takeDigs 7 cs
  let r2 ← litChar '-' r1
  let (d2, r3) ← takeDigs 2 r2
  let r4 ← litChar '.' r3
  let (d3, r5) ← takeDigs 4 r4
  let r6 ← litChar '.' r5
  let (d4, r7) ← takeDigs 1 r6
  let r8 ← litChar '.' r7
  let (d5, r9) ← takeDigs 2 r8
  let r10 ← litChar '.' r9
  let (d6, _) ← takeDigs 4 r10
  pure (d1 ++ '-' :: d2 ++ '.' :: d3 ++ '.' :: d4 ++ '.' :: d5 ++ '.' :: d6)

/-- Match a date token (two digits, slash-or-dash, two digits, slash-or-dash, four digits); returns the token and remainder. -/
def matchDateTok : Str → Option (Str × Str)
  | a :: b :: s1 :: c :: d :: s2 :: e :: f :: g :: h :: rest =>
    if isDig a && isDig b && isDig c && isDig d &&
        isDig e && isDig f && isDig g && isDig h &&
        (s1 = '/' || s1 = '-') && (s2 = '/' || s2 = '-') then
      some ([a, b, s1, c, d, s2, e, f, g, h], rest)
    else none
  | _ => none

/-- The phrase `Encerramento\s+com\s+a\s+Libera` (case-insensitive); returns
the remainder after `Libera`. -/
def matchEncPhrase (cs : Str) : Option Str :=
  match litCI "Encerramento".toList cs with
  | none => none
  | some r1 =>
    wsPlus (fun r2 =>
      match litCI "com".toList r2 with
      | none => none
      | some r3 =>
        wsPlus (fun r4 =>
          match litCI "a".toList r4 with
          | none => none
          | some r5 => wsPlus (litCI "Libera".toList) r5) r3) r1

/-- First closing-date pattern (src/main.py line 231):
a date token, then `.{0,60}` greedy, then the closing phrase. -/
def matchEncerrA (cs : Str) : Option Str :=
  match matchDateTok cs with
  | none => none
  | some (tok, rest) => (dotsThen matchEncPhrase 60 rest).map fun _ => tok

/-- Second closing-date pattern (src/main.py line 236):
the closing phrase, then a lazy skip of up to 60 non-newline chars, then a date token. -/
def matchEncerrB (cs : Str) : Option Str :=
  match matchEncPhrase cs with
  | none => none
  | some rest => lazyDotsThen (fun s => (matchDateTok s).map (·.1)) 60 rest

/-- `str(cell) if cell else ""`: a missing or empty cell renders as empty. -/
def cellText : Option Str → Str
  | some s => s
  | none => []

/-- `txt.split(":", 1)[1]`. -/
def afterColon (cs : Str) : Str := (cs.dropWhile fun c => c ≠ ':').drop 1

/-- The per-row cell scan of the party-name table fallback (src/main.py lines
205-219): find a cell whose normalised text contains `parte autora`; the name
is the text after a colon in that cell, else the cell to its right; an empty
candidate lets the scan continue. The accent folding of `_norm` (NFKD plus
combining-mark removal) is modelled by ASCII lower-casing, which agrees with it
on the compared literal. -/
def rowNameScan : List (Option Str) → Option Str
  | [] => none
  | cell :: rest =>
    let txt := cellText cell
    if hasSubSeq ("parte autora".toList) (txt.map lowerC) then
      let nome := if txt.contains ':' then stripPy (afterColon txt) else []
      let nome2 :=
        if nome = [] then
          match rest with
          | c2 :: _ => stripPy (cellText c2)
          | [] => nome
        else nome
      if nome2 ≠ [] then some nome2 else rowNameScan rest
    else rowNameScan rest

/-- First name found in one table. -/
def tableNameScan : List (List (Option Str)) → Option Str
  | [] => none
  | row :: rows => rowNameScan row <|> tableNameScan rows

/-- One extracted page: its text (possibly `None`) and its tables. -/
structure Page where
  text : Option Str
  tables : List (List (List (Option Str)))

/-- A source document: its path, and the outcome of `pdfplumber.open` plus
page extraction, which is outside the engine and may fail. -/
structure PDoc where
  path : Str
  opened : Except Str (List Page)

/-- First name found among the tables of one page. -/
def tablesNameScan : List (List (List (Option Str))) → Option Str
  | [] => none
  | t :: ts => tableNameScan t <|> tablesNameScan ts

/-- The page loop of the table fallback (src/main.py lines 201-223): the inner
breaks stop at the first hit within a page, but the page loop itself never
breaks, so a later page's hit overwrites an earlier one. -/
def pagesName (pages : List Page) : Option Str :=
  pages.foldl
    (fun acc pg =>
      match tablesNameScan pg.tables with
      | some n => some n
      | none => acc)
    none

/-- `Path(p).name`: the last `/`-separated component. -/
def basename (p : Str) : Str := (p.reverse.takeWhile fun c => c ≠ '/').reverse

/-- The record filled by `extrair_dados_pdf`. -/
structure Dados where
  arquivo : Str
  nome : Str
  processo : Str
  dataEnc : Str
  contratual : Str
  sucumbencia : Str
  total : Str
deriving DecidableEq

/-- One output row of the batch (src/main.py lines 258-267 and 270-279). -/
structure Registro where
  arquivo : Str
  nome : Str
  processo : Str
  dataEnc : Str
  total : Str
  contratual : Str
  sucumbencia : Str
  erro : Str
deriving DecidableEq

/-- The joined page texts (src/main.py lines 188-190): every page's text, or
`""` for a missing one, followed by a newline. -/
def pagesText (pages : List Page) : Str :=
  pages.foldl (fun acc pg => acc ++ pg.text.getD [] ++ ['\n']) []

/-- The party name (src/main.py lines 192-223): the stripped regex capture
when non-empty, else the table fallback (which only ever yields a non-empty
name), else `""`. -/
def nomeFromDoc (texto : Str) (pages : List Page) : Str :=
  match searchFirst matchParteAt texto with
  | some cap =>
    if stripPy cap = [] then (pagesName pages).getD [] else stripPy cap
  | none => (pagesName pages).getD []

/-- The closing date (src/main.py lines 230-239): date-before-phrase first,
then phrase-before-date, else `""`. -/
def encerrFromText (texto : Str) : Str :=
  match searchFirst matchEncerrA texto with
  | some d => d
  | none => (searchFirst matchEncerrB texto).getD []

/-- `extrair_dados_pdf` (src/main.py lines 175-247): join the page texts, run
the three fallback extractors and the section-5 aggregation. A failing open or
a raising `idxmax` propagates as an error; the field extractors themselves
never raise, so evaluating them after the section-5 step (the source computes
them before it) is equivalent. -/
def extrair_dados_pdf (doc : PDoc) : Except Str Dados :=
  match doc.opened with
  | .error e => .error e
  | .ok pages =>
    match processar_secao5_comparativo (pagesText pages) with
    | .error e => .error e
    | .ok (c, s, t) =>
      .ok ⟨basename doc.path, nomeFromDoc (pagesText pages) pages,
        (searchFirst matchProcAt (pagesText pages)).getD [],
        encerrFromText (pagesText pages), c, s, t⟩

/-- `extrair_em_lote` (src/main.py lines 253-280): one record per path, in
order; a per-document exception becomes a record with default fields and the
exception text in `Erro`. -/
def extrair_em_lote (docs : List PDoc) : List Registro :=
  docs.map fun p =>
    match extrair_dados_pdf p with
    | .ok d => ⟨d.arquivo, d.nome, d.processo, d.dataEnc, d.total, d.contratual, d.sucumbencia, []⟩
    | .error e => ⟨basename p.path, [], [], [], [], [], [], e⟩

/-! ### Definitions taken from the specification's words (for the refinement
claims; they are compared with the source embeddings above). -/

/-- Specification side, from the spec's words: the maximum of a list of date
keys. -/
def specMaxKey (keys : List Nat) : Option Nat :=
  match keys with
  | [] => none
  | k :: ks => some (ks.foldl Nat.max k)

/-- Specification side, from the spec's words (spec 4.5): filter to the rows
whose date parses as a valid calendar date, return the row with the maximum
date, ties broken by first occurrence in source order; empty result when no
row qualifies. -/
def specMostRecent (rows : List Row) : List Row :=
  match specMaxKey (rows.filterMap dkeyRow) with
  | none => []
  | some m =>
    match rows.find? fun r => dkeyRow r == some m with
    | some r => [r]
    | none => []

/-- The `.`-separated groups `gs` rendered with their dots. -/
def dottedGroups (gs : List Str) : Str := (gs.map fun g => '.' :: g).flatten

/-- Specification side, from the spec's words (spec 8 round-trip law): a
well-formed BR money string — standard 3-digit `.` grouping (first group of
one to three digits without a spurious leading zero), a comma, exactly two
fractional digits. -/
def WellFormedBR (s : Str) : Prop :=
  ∃ (g0 : Str) (gs : List Str) (f1 f2 : Char),
    s = g0 ++ dottedGroups gs ++ ',' :: [f1, f2] ∧
    1 ≤ g0.length ∧ g0.length ≤ 3 ∧ (∀ c ∈ g0, isDig c = true) ∧
    (∀ g ∈ gs, g.length = 3 ∧ ∀ c ∈ g, isDig c = true) ∧
    isDig f1 = true ∧ isDig f2 = true ∧
    (g0.head? = some '0' → g0 = ['0'] ∧ gs = [])

/-- Canonically formatted BR money characters: dot-grouped integer digits, a
comma, two fraction digits. -/
def brCanon (n f : Nat) : Str := groupedChars '.' n ++ ',' :: twoFrac f

/-- The BR separator swap as a single character map; it agrees with
`swapXmap` on strings without `X`. -/
def brSwap (c : Char) : Char :=
  if c = ',' then '.' else if c = '.' then ',' else c

/-- The section-5 header pattern matches at position `i` of the text. -/
abbrev HeaderAt (full : Str) (i : Nat) : Prop :=
  (matchHeaderAt (full.drop i)).isSome = true

/-- A document whose external open failure, if any, carries a non-empty
message (real exceptions stringify non-empty). -/
def errNonempty (p : PDoc) : Bool :=
  match p.opened with
  | .error e => !e.isEmpty
  | .ok _ => true

end PdfExcel

namespace PdfExcel

/-! ### Generic list lemmas -/

theorem length_dropWhile_le {α : Type} (p : α → Bool) (l : List α) :
    (l.dropWhile p).length ≤ l.length := by
  induction l with
  | nil => simp [List.dropWhile]
  | cons a l ih =>
    simp only [List.dropWhile]
    split
    · exact Nat.le_succ_of_le ih
    · simp

theorem takeWhile_coe_append {α : Type} (p : α → Bool) (A B : List α)
    (hA : ∀ c ∈ A, p c = true) :
    (A ++ B).takeWhile p = A ++ B.takeWhile p := by
  induction A with
  | nil => simp
  | cons a A ih =>
    have ha := hA a (by simp)
    simp only [List.cons_append, List.takeWhile_cons, ha, if_true]
    rw [ih fun c hc => hA c (by simp [hc])]

theorem dropWhile_coe_append {α : Type} (p : α → Bool) (A B : List α)
    (hA : ∀ c ∈ A, p c = true) :
    (A ++ B).dropWhile p = B.dropWhile p := by
  induction A with
  | nil => simp
  | cons a A ih =>
    have ha := hA a (by simp)
    simp only [List.cons_append, List.dropWhile_cons, ha, if_true]
    exact ih fun c hc => hA c (by simp [hc])

theorem takeWhile_stop {α : Type} (p : α → Bool) (b : α) (B : List α)
    (hb : p b = false) : (b :: B).takeWhile p = [] := by
  simp [List.takeWhile_cons, hb]

theorem dropWhile_stop {α : Type} (p : α → Bool) (b : α) (B : List α)
    (hb : p b = false) : (b :: B).dropWhile p = b :: B := by
  simp [List.dropWhile_cons, hb]

theorem dropWhile_eq_self_of {α : Type} (p : α → Bool) (l : List α)
    (h : ∀ c ∈ l, p c = false) : l.dropWhile p = l := by
  cases l with
  | nil => rfl
  | cons a l => simp [List.dropWhile_cons, h a (by simp)]

theorem stripPy_no_space (cs : Str) (h : ∀ c ∈ cs, isPySpace c = false) :
    stripPy cs = cs := by
  unfold stripPy
  rw [dropWhile_eq_self_of _ _ h, dropWhile_eq_self_of, List.reverse_reverse]
  intro c hc
  exact h c (by simpa using hc)

/-! ### Fuel irrelevance and unfolding of the scan loops -/

theorem parseTableAux_fuel :
    ∀ (n : Nat) (lines : List Str) (f₁ f₂ : Nat), lines.length ≤ f₁ →
      lines.length ≤ f₂ → lines.length ≤ n →
      parseTableAux f₁ lines = parseTableAux f₂ lines := by
  intro n
  induction n with
  | zero =>
    intro lines f₁ f₂ _ _ hn
    have : lines = [] := List.length_eq_zero.mp (Nat.le_zero.mp hn)
    subst this
    cases f₁ <;> cases f₂ <;> rfl
  | succ n ih =>
    intro lines f₁ f₂ h₁ h₂ hn
    match lines with
    | [] => cases f₁ <;> cases f₂ <;> rfl
    | ln :: rest =>
      match f₁, f₂ with
      | 0, _ => exact absurd h₁ (by simp)
      | _ + 1, 0 => exact absurd h₂ (by simp)
      | a + 1, b + 1 =>
        have hra : rest.length ≤ a := by simpa using h₁
        have hrb : rest.length ≤ b := by simpa using h₂
        have hrn : rest.length ≤ n := by simpa using hn
        simp only [parseTableAux]
        split
        · exact ih rest a b hra hrb hrn
        · split
          · rw [ih rest a b hra hrb hrn]
          · split
            · rw [ih (rest.dropWhile pendCont) a b
                (le_trans (length_dropWhile_le _ _) hra)
                (le_trans (length_dropWhile_le _ _) hrb)
                (le_trans (length_dropWhile_le _ _) hrn)]
            · rw [ih rest a b hra hrb hrn]

theorem parse_table_nil : parse_table [] = [] := rfl

theorem parse_table_header (ln : Str) (rest : List Str) (h : headerNoiseB ln = true) :
    parse_table (ln :: rest) = parse_table rest := by
  show parseTableAux (rest.length + 1) (ln :: rest) = _
  simp only [parseTableAux, h, if_true]
  rfl

theorem parse_table_dated (ln : Str) (rest : List Str) (h : headerNoiseB ln = false)
    (hd : dateStartB ln = true) :
    parse_table (ln :: rest) = datedRowOf ln :: parse_table rest := by
  show parseTableAux (rest.length + 1) (ln :: rest) = _
  simp only [parseTableAux, h, hd, if_true, Bool.false_eq_true, if_false]
  rfl

theorem parse_table_pending (ln : Str) (rest : List Str) (h : headerNoiseB ln = false)
    (hd : dateStartB ln = false) (hp : startsWithSeq agTok ln = true) :
    parse_table (ln :: rest) =
      pendingRowOf ln (rest.takeWhile pendCont) ::
        parse_table (rest.dropWhile pendCont) := by
  show parseTableAux (rest.length + 1) (ln :: rest) = _
  simp only [parseTableAux, h, hd, hp, if_true, Bool.false_eq_true, if_false]
  rw [parseTableAux_fuel rest.length (rest.dropWhile pendCont) rest.length
    (rest.dropWhile pendCont).length (length_dropWhile_le _ _) (le_refl _)
    (length_dropWhile_le _ _)]
  rfl

theorem parse_table_fallback (ln : Str) (rest : List Str) (h : headerNoiseB ln = false)
    (hd : dateStartB ln = false) (hp : startsWithSeq agTok ln = false) :
    parse_table (ln :: rest) = fallbackRowOf ln :: parse_table rest := by
  show parseTableAux (rest.length + 1) (ln :: rest) = _
  simp only [parseTableAux, h, hd, hp, Bool.false_eq_true, if_false]
  rfl

theorem parseTableTAux_fuel :
    ∀ (n : Nat) (lines : List Str) (f₁ f₂ : Nat), lines.length ≤ f₁ →
      lines.length ≤ f₂ → lines.length ≤ n →
      parseTableTAux f₁ lines = parseTableTAux f₂ lines := by
  intro n
  induction n with
  | zero =>
    intro lines f₁ f₂ _ _ hn
    have : lines = [] := List.length_eq_zero.mp (Nat.le_zero.mp hn)
    subst this
    cases f₁ <;> cases f₂ <;> rfl
  | succ n ih =>
    intro lines f₁ f₂ h₁ h₂ hn
    match lines with
    | [] => cases f₁ <;> cases f₂ <;> rfl
    | ln :: rest =>
      match f₁, f₂ with
      | 0, _ => exact absurd h₁ (by simp)
      | _ + 1, 0 => exact absurd h₂ (by simp)
      | a + 1, b + 1 =>
        have hra : rest.length ≤ a := by simpa using h₁
        have hrb : rest.length ≤ b := by simpa using h₂
        have hrn : rest.length ≤ n := by simpa using hn
        simp only [parseTableTAux]
        split
        · exact ih rest a b hra hrb hrn
        · split
          · rw [ih rest a b hra hrb hrn]
          · split
            · rw [ih (rest.dropWhile pendCont) a b
                (le_trans (length_dropWhile_le _ _) hra)
                (le_trans (length_dropWhile_le _ _) hrb)
                (le_trans (length_dropWhile_le _ _) hrn)]
            · rw [ih rest a b hra hrb hrn]

theorem scanStepsAux_fuel :
    ∀ (n : Nat) (lines : List Str) (f₁ f₂ : Nat), lines.length ≤ f₁ →
      lines.length ≤ f₂ → lines.length ≤ n →
      scanStepsAux f₁ lines = scanStepsAux f₂ lines := by
  intro n
  induction n with
  | zero =>
    intro lines f₁ f₂ _ _ hn
    have : lines = [] := List.length_eq_zero.mp (Nat.le_zero.mp hn)
    subst this
    cases f₁ <;> cases f₂ <;> rfl
  | succ n ih =>
    intro lines f₁ f₂ h₁ h₂ hn
    match lines with
    | [] => cases f₁ <;> cases f₂ <;> rfl
    | ln :: rest =>
      match f₁, f₂ with
      | 0, _ => exact absurd h₁ (by simp)
      | _ + 1, 0 => exact absurd h₂ (by simp)
      | a + 1, b + 1 =>
        have hra : rest.length ≤ a := by simpa using h₁
        have hrb : rest.length ≤ b := by simpa using h₂
        have hrn : rest.length ≤ n := by simpa using hn
        simp only [scanStepsAux]
        split
        · rw [ih rest a b hra hrb hrn]
        · split
          · rw [ih rest a b hra hrb hrn]
          · split
            · rw [ih (rest.dropWhile pendCont) a b
                (le_trans (length_dropWhile_le _ _) hra)
                (le_trans (length_dropWhile_le _ _) hrb)
                (le_trans (length_dropWhile_le _ _) hrn)]
            · rw [ih rest a b hra hrb hrn]

theorem scanSteps_nil : scanSteps [] = [] := rfl

theorem scanSteps_header (ln : Str) (rest : List Str) (h : headerNoiseB ln = true) :
    scanSteps (ln :: rest) = (.header, [ln]) :: scanSteps rest := by
  show scanStepsAux (rest.length + 1) (ln :: rest) = _
  simp only [scanStepsAux, h, if_true]
  rfl

theorem scanSteps_dated (ln : Str) (rest : List Str) (h : headerNoiseB ln = false)
    (hd : dateStartB ln = true) :
    scanSteps (ln :: rest) = (.dated, [ln]) :: scanSteps rest := by
  show scanStepsAux (rest.length + 1) (ln :: rest) = _
  simp only [scanStepsAux, h, hd, if_true, Bool.false_eq_true, if_false]
  rfl

theorem scanSteps_pending (ln : Str) (rest : List Str) (h : headerNoiseB ln = false)
    (hd : dateStartB ln = false) (hp : startsWithSeq agTok ln = true) :
    scanSteps (ln :: rest) =
      (.pending, ln :: rest.takeWhile pendCont) ::
        scanSteps (rest.dropWhile pendCont) := by
  show scanStepsAux (rest.length + 1) (ln :: rest) = _
  simp only [scanStepsAux, h, hd, hp, if_true, Bool.false_eq_true, if_false]
  rw [scanStepsAux_fuel rest.length (rest.dropWhile pendCont) rest.length
    (rest.dropWhile pendCont).length (length_dropWhile_le _ _) (le_refl _)
    (length_dropWhile_le _ _)]
  rfl

theorem scanSteps_fallback (ln : Str) (rest : List Str) (h : headerNoiseB ln = false)
    (hd : dateStartB ln = false) (hp : startsWithSeq agTok ln = false) :
    scanSteps (ln :: rest) = (.fallback, [ln]) :: scanSteps rest := by
  show scanStepsAux (rest.length + 1) (ln :: rest) = _
  simp only [scanStepsAux, h, hd, hp, Bool.false_eq_true, if_false]
  rfl

/-! ### Decimal digits: expansion, value, uniqueness -/

theorem revDigitsAux_fuel :
    ∀ (n m f₁ f₂ : Nat), m ≤ f₁ → m ≤ f₂ → m ≤ n →
      revDigitsAux f₁ m = revDigitsAux f₂ m := by
  intro n
  induction n with
  | zero =>
    intro m f₁ f₂ _ _ hn
    have : m = 0 := Nat.le_zero.mp hn
    subst this
    cases f₁ <;> cases f₂ <;> rfl
  | succ n ih =>
    intro m f₁ f₂ h₁ h₂ hn
    match m, f₁, f₂ with
    | 0, f₁, f₂ => cases f₁ <;> cases f₂ <;> rfl
    | k + 1, 0, _ => exact absurd h₁ (by omega)
    | k + 1, _ + 1, 0 => exact absurd h₂ (by omega)
    | k + 1, a + 1, b + 1 =>
      have hdiv : (k + 1) / 10 < k + 1 := Nat.div_lt_self (by omega) (by omega)
      simp only [revDigitsAux]
      rw [ih ((k + 1) / 10) a b (by omega) (by omega) (by omega)]

theorem revDigits_eq_cons (n : Nat) (h : n ≠ 0) :
    revDigits n = n % 10 :: revDigits (n / 10) := by
  match n, h with
  | k + 1, _ =>
    show revDigitsAux (k + 1) (k + 1) = _
    have hdiv : (k + 1) / 10 < k + 1 := Nat.div_lt_self (by omega) (by omega)
    simp only [revDigitsAux]
    rw [revDigitsAux_fuel k ((k + 1) / 10) k ((k + 1) / 10) (by omega) (by omega) (by omega)]
    rfl

theorem ofRevDigits_revDigits (n : Nat) : ofRevDigits (revDigits n) = n := by
  induction n using Nat.strong_induction_on with
  | _ n ih =>
    rcases Nat.eq_zero_or_pos n with rfl | hpos
    · rfl
    · rw [revDigits_eq_cons n (by omega)]
      have hdiv : n / 10 < n := Nat.div_lt_self (by omega) (by omega)
      simp only [ofRevDigits, ih (n / 10) hdiv]
      omega

theorem revDigits_lt10 (n : Nat) : ∀ d ∈ revDigits n, d < 10 := by
  induction n using Nat.strong_induction_on with
  | _ n ih =>
    rcases Nat.eq_zero_or_pos n with rfl | hpos
    · intro d hd
      simp [revDigits, revDigitsAux] at hd
    · rw [revDigits_eq_cons n (by omega)]
      intro d hd
      rcases List.mem_cons.mp hd with rfl | hd
      · omega
      · exact ih (n / 10) (Nat.div_lt_self (by omega) (by omega)) d hd

theorem revDigits_ne_nil (n : Nat) (h : n ≠ 0) : revDigits n ≠ [] := by
  rw [revDigits_eq_cons n h]
  simp

theorem revDigits_getLast?_ne_zero (n : Nat) (h : n ≠ 0) :
    (revDigits n).getLast? ≠ some 0 := by
  induction n using Nat.strong_induction_on with
  | _ n ih =>
    rw [revDigits_eq_cons n h]
    rcases Nat.eq_zero_or_pos (n / 10) with hz | hpos
    · rw [hz]
      have hrd : revDigits 0 = [] := rfl
      rw [hrd]
      have hn10 : n < 10 := by
        rcases Nat.lt_or_ge n 10 with h10 | h10
        · exact h10
        · exact absurd hz (by omega)
      have : n % 10 = n := Nat.mod_eq_of_lt hn10
      simp [this, h]
    · have hne := revDigits_ne_nil (n / 10) (by omega)
      rcases hl : revDigits (n / 10) with _ | ⟨e, l'⟩
      · exact absurd hl hne
      · rw [List.getLast?_cons_cons]
        rw [← hl]
        exact ih (n / 10) (Nat.div_lt_self (by omega) (by omega)) (by omega)

theorem ofRevDigits_pos :
    ∀ ds : List Nat, ds ≠ [] → ds.getLast? ≠ some 0 → 0 < ofRevDigits ds := by
  intro ds
  induction ds with
  | nil => intro h; exact absurd rfl h
  | cons d ds ih =>
    intro _ hlast
    cases ds with
    | nil =>
      simp only [List.getLast?_singleton] at hlast
      have : d ≠ 0 := fun hd => hlast (by rw [hd])
      simp only [ofRevDigits]
      omega
    | cons e ds' =>
      rw [List.getLast?_cons_cons] at hlast
      have := ih (by simp) hlast
      simp only [ofRevDigits] at this ⊢
      omega

theorem revDigits_ofRevDigits :
    ∀ ds : List Nat, (∀ d ∈ ds, d < 10) → ds.getLast? ≠ some 0 →
      revDigits (ofRevDigits ds) = ds := by
  intro ds
  induction ds with
  | nil => intro _ _; rfl
  | cons d ds ih =>
    intro hlt hlast
    have hd10 : d < 10 := hlt d (by simp)
    cases ds with
    | nil =>
      simp only [List.getLast?_singleton] at hlast
      have hd0 : d ≠ 0 := fun hd => hlast (by rw [hd])
      have hval : ofRevDigits [d] = d := by simp [ofRevDigits]
      rw [hval, revDigits_eq_cons d hd0, Nat.mod_eq_of_lt hd10,
        Nat.div_eq_of_lt hd10]
      rfl
    | cons e ds' =>
      rw [List.getLast?_cons_cons] at hlast
      have hT : 0 < ofRevDigits (e :: ds') := ofRevDigits_pos _ (by simp) hlast
      have hofs : ofRevDigits (d :: e :: ds') = d + 10 * ofRevDigits (e :: ds') := rfl
      rw [hofs, revDigits_eq_cons _ (by omega)]
      have hmod : (d + 10 * ofRevDigits (e :: ds')) % 10 = d := by omega
      have hdiv : (d + 10 * ofRevDigits (e :: ds')) / 10 = ofRevDigits (e :: ds') := by
        omega
      rw [hmod, hdiv, ih (fun x hx => hlt x (by simp [hx])) hlast]

/-! ### Digit characters -/

theorem isDig_cases (c : Char) (h : isDig c = true) :
    c = '0' ∨ c = '1' ∨ c = '2' ∨ c = '3' ∨ c = '4' ∨
      c = '5' ∨ c = '6' ∨ c = '7' ∨ c = '8' ∨ c = '9' := by
  simpa [isDig] using h

theorem charVal_lt10 (c : Char) (h : isDig c = true) : charVal c < 10 := by
  rcases isDig_cases c h with rfl | rfl | rfl | rfl | rfl | rfl | rfl | rfl | rfl | rfl <;>
    decide

theorem digit10_charVal (c : Char) (h : isDig c = true) : digit10 (charVal c) = c := by
  rcases isDig_cases c h with rfl | rfl | rfl | rfl | rfl | rfl | rfl | rfl | rfl | rfl <;>
    decide

theorem isDig_digit10 (n : Nat) : isDig (digit10 n) = true := by
  unfold digit10
  split <;> decide

theorem digit_props (c : Char) (h : isDig c = true) :
    c ≠ '.' ∧ c ≠ ',' ∧ c ≠ 'X' ∧ c ≠ '+' ∧ c ≠ '-' ∧ c ≠ '/' ∧
      isPySpace c = false ∧ brSwap c = c := by
  rcases isDig_cases c h with rfl | rfl | rfl | rfl | rfl | rfl | rfl | rfl | rfl | rfl <;>
    decide

theorem charVal_ne_zero (c : Char) (h : isDig c = true) (h0 : c ≠ '0') :
    charVal c ≠ 0 := by
  rcases isDig_cases c h with rfl | rfl | rfl | rfl | rfl | rfl | rfl | rfl | rfl | rfl <;>
    first
    | exact absurd rfl h0
    | decide

theorem intChars_digits (n : Nat) : ∀ c ∈ intChars n, isDig c = true := by
  intro c hc
  unfold intChars at hc
  split at hc
  · simp at hc
    subst hc
    decide
  · rw [List.mem_reverse] at hc
    obtain ⟨d, hd, rfl⟩ := List.mem_map.mp hc
    exact isDig_digit10 d

theorem intChars_valOfDigits (ds : Str) (hdig : ∀ c ∈ ds, isDig c = true)
    (hlead : ds = ['0'] ∨ ds.head? ≠ some '0') (hne : ds ≠ []) :
    intChars (valOfDigits ds) = ds := by
  rcases hlead with rfl | hlead
  · rfl
  · have hlast : ((ds.map charVal).reverse).getLast? ≠ some 0 := by
      rw [List.getLast?_reverse]
      cases ds with
      | nil => exact absurd rfl hne
      | cons c0 ds' =>
        simp only [List.map_cons, List.head?_cons]
        intro hc
        have hc0 : charVal c0 = 0 := by simpa using hc
        exact charVal_ne_zero c0 (hdig c0 (by simp))
          (fun h => hlead (by subst h; rfl)) hc0
    have hlt : ∀ d ∈ (ds.map charVal).reverse, d < 10 := by
      intro d hd
      rw [List.mem_reverse] at hd
      obtain ⟨c, hc, rfl⟩ := List.mem_map.mp hd
      exact charVal_lt10 c (hdig c hc)
    have hpos : 0 < valOfDigits ds := by
      apply ofRevDigits_pos _ _ hlast
      simpa using hne
    have hrd : revDigits (valOfDigits ds) = (ds.map charVal).reverse :=
      revDigits_ofRevDigits _ hlt hlast
    unfold intChars
    rw [if_neg (by omega), hrd, ← List.map_reverse, List.reverse_reverse,
      List.map_map]
    have hmap : List.map (digit10 ∘ charVal) ds = List.map id ds :=
      List.map_congr_left fun c hc => by
        simpa using digit10_charVal c (hdig c hc)
    rw [hmap, List.map_id]

/-! ### Thousands grouping -/

theorem group3_short (sep : Char) (l : Str) (h : l.length ≤ 3) :
    group3 sep l = l := by
  match l with
  | [] => rfl
  | [a] => rfl
  | [a, b] => rfl
  | [a, b, c] => rfl
  | a :: b :: c :: d :: t => simp at h

theorem group3_cons3 (sep a b c : Char) (l : Str) (h : l ≠ []) :
    group3 sep (a :: b :: c :: l) = a :: b :: c :: sep :: group3 sep l := by
  match l, h with
  | d :: t, _ => rfl

theorem group3_map (sep : Char) (f : Char → Char) :
    ∀ l : Str, (group3 sep l).map f = group3 (f sep) (l.map f) := by
  intro l
  induction l using group3.induct sep with
  | case1 => rfl
  | case2 a => rfl
  | case3 a b => rfl
  | case4 a b c => rfl
  | case5 a b c d rest ih => simp [group3, ih]

theorem group3_mem (sep : Char) :
    ∀ l : Str, ∀ c ∈ group3 sep l, c = sep ∨ c ∈ l := by
  intro l
  induction l using group3.induct sep with
  | case1 => simp [group3]
  | case2 a => simp [group3]
  | case3 a b => simp [group3]
  | case4 a b c => simp [group3]
  | case5 a b c d rest ih =>
    intro x hx
    simp only [group3, List.mem_cons] at hx
    rcases hx with rfl | rfl | rfl | rfl | hx
    · simp
    · simp
    · simp
    · simp
    · rcases ih x hx with rfl | hx'
      · simp
      · simp [hx']

theorem group3_big (sep : Char) :
    ∀ (gs : List Str) (g0 : Str), g0 ≠ [] → g0.length ≤ 3 →
      (∀ g ∈ gs, g.length = 3) →
      (group3 sep (g0 ++ gs.flatten).reverse).reverse =
        g0 ++ (gs.map fun g => sep :: g).flatten := by
  intro gs
  induction gs using List.reverseRecOn with
  | nil =>
    intro g0 h0 h3 _
    simp only [List.flatten_nil, List.append_nil, List.map_nil]
    rw [group3_short sep g0.reverse (by simpa using h3), List.reverse_reverse]
  | append_singleton gs g ih =>
    intro g0 h0 h3 hg
    obtain ⟨a, b, c, rfl⟩ := List.length_eq_three.mp (hg g (by simp))
    have hX : g0 ++ gs.flatten ≠ [] := fun hcon =>
      h0 (List.append_eq_nil.mp hcon).1
    have hXr : (g0 ++ gs.flatten).reverse ≠ [] := fun hcon =>
      hX (List.reverse_eq_nil_iff.mp hcon)
    have hre : (g0 ++ (gs ++ [[a, b, c]]).flatten).reverse =
        c :: b :: a :: (g0 ++ gs.flatten).reverse := by
      simp
    rw [hre, group3_cons3 sep c b a _ hXr]
    simp only [List.reverse_cons]
    rw [show ((group3 sep (g0 ++ gs.flatten).reverse).reverse ++ [sep]) ++ [a] ++ [b] ++ [c]
        = (group3 sep (g0 ++ gs.flatten).reverse).reverse ++ (sep :: [a, b, c]) by simp]
    rw [ih g0 h0 h3 fun x hx => hg x (by simp [hx])]
    simp

/-! ### The separator swap and the formatting of cent values -/

theorem swapXmap_append (A B : Str) : swapXmap (A ++ B) = swapXmap A ++ swapXmap B := by
  simp [swapXmap]

theorem swapXmap_eq_map (cs : Str) (h : ∀ c ∈ cs, c ≠ 'X') :
    swapXmap cs = cs.map brSwap := by
  unfold swapXmap
  rw [List.map_map, List.map_map]
  refine List.map_congr_left fun c hc => ?_
  simp only [Function.comp_apply]
  by_cases h1 : c = ','
  · subst h1; rfl
  · by_cases h2 : c = '.'
    · subst h2; rfl
    · simp [brSwap, h1, h2, h c hc]

theorem map_brSwap_digits (ds : Str) (h : ∀ c ∈ ds, isDig c = true) :
    ds.map brSwap = ds := by
  have hm : ds.map brSwap = ds.map id :=
    List.map_congr_left fun c hc => (digit_props c (h c hc)).2.2.2.2.2.2.2
  rw [hm, List.map_id]

theorem swapXmap_grouped (n : Nat) :
    swapXmap (groupedChars ',' n) = groupedChars '.' n := by
  have hnoX : ∀ c ∈ groupedChars ',' n, c ≠ 'X' := by
    intro c hc
    unfold groupedChars at hc
    rw [List.mem_reverse] at hc
    rcases group3_mem ',' _ c hc with rfl | hc'
    · decide
    · rw [List.mem_reverse] at hc'
      exact (digit_props c (intChars_digits n c hc')).2.2.1
  rw [swapXmap_eq_map _ hnoX]
  unfold groupedChars
  rw [List.map_reverse, group3_map]
  have hdig : ∀ c ∈ (intChars n).reverse, isDig c = true := fun c hc =>
    intChars_digits n c (List.mem_reverse.mp hc)
  rw [map_brSwap_digits _ hdig]
  rfl

theorem roundHalfEven_natCast (m : ℕ) : roundHalfEven ((m : ℚ)) = (m : ℤ) := by
  have hfl : floorQ ((m : ℚ)) = (m : ℤ) := by
    unfold floorQ
    rw [Rat.num_natCast, Rat.den_natCast]
    simp
  unfold roundHalfEven
  rw [hfl]
  have hfr : ((m : ℚ)) - (((m : ℤ) : ℚ)) = 0 := by push_cast; ring
  rw [hfr]
  norm_num

/-! ### Bracketing and distance facts for the binary64 rounding -/

theorem floorQ_eq_floor (q : ℚ) : floorQ q = ⌊q⌋ := by
  unfold floorQ
  rw [Int.fdiv_eq_ediv _ (by positivity), Rat.floor_def]

theorem roundHalfEven_abs_le (q : ℚ) : |(roundHalfEven q : ℚ) - q| ≤ 1 / 2 := by
  have hle : (floorQ q : ℚ) ≤ q := by
    rw [floorQ_eq_floor]
    exact Int.floor_le q
  have hlt : q < (floorQ q : ℚ) + 1 := by
    rw [floorQ_eq_floor]
    exact Int.lt_floor_add_one q
  unfold roundHalfEven
  split
  · next h => rw [abs_sub_comm, abs_of_nonneg (by linarith)]; linarith
  · next h =>
    split
    · next h2 => push_cast; rw [abs_of_nonneg (by linarith)]; linarith
    · next h2 =>
      have heq : q - (floorQ q : ℚ) = 1 / 2 := le_antisymm (not_lt.mp h2) (not_lt.mp h)
      split
      · rw [abs_sub_comm, abs_of_nonneg (by linarith)]; linarith
      · push_cast; rw [abs_of_nonneg (by linarith)]; linarith

theorem floorQ_eq_of (q : ℚ) (n : ℤ) (h1 : (n : ℚ) ≤ q) (h2 : q < (n : ℚ) + 1) :
    floorQ q = n := by
  rw [floorQ_eq_floor]
  exact Int.floor_eq_iff.mpr ⟨h1, h2⟩

theorem roundHalfEven_eq_of_close (q : ℚ) (n : ℤ) (h : |q - (n : ℚ)| < 1 / 2) :
    roundHalfEven q = n := by
  rw [abs_lt] at h
  obtain ⟨hlo, hhi⟩ := h
  by_cases hge : (n : ℚ) ≤ q
  · have hfl : floorQ q = n := floorQ_eq_of q n hge (by linarith)
    unfold roundHalfEven
    rw [hfl, if_pos (by linarith)]
  · push_neg at hge
    have hfl : floorQ q = n - 1 := floorQ_eq_of q (n - 1) (by push_cast; linarith)
      (by push_cast; linarith)
    unfold roundHalfEven
    rw [hfl, if_neg (by push_cast; linarith), if_pos (by push_cast; linarith)]
    omega

theorem two_pow_ilog2Up_le :
    ∀ (fuel : Nat) (q : ℚ), 1 ≤ q → (2 : ℚ) ^ ilog2Up fuel q ≤ q := by
  intro fuel
  induction fuel with
  | zero => intro q hq; simpa [ilog2Up] using hq
  | succ f ih =>
    intro q hq
    simp only [ilog2Up]
    split
    · simpa using hq
    · next h =>
      have h2 : (2 : ℚ) ≤ q := not_lt.mp h
      have hq2 : (1 : ℚ) ≤ q / 2 := by linarith
      have hrec := ih (q / 2) hq2
      have hpow : (2 : ℚ) ^ (ilog2Up f (q / 2) + 1) = 2 ^ ilog2Up f (q / 2) * 2 := by ring
      rw [hpow]
      linarith

theorem rhe_scale_close (q : ℚ) (k : Nat) (hk : 7 ≤ k) :
    |(roundHalfEven (q * 2 ^ k) : ℚ) / 2 ^ k - q| ≤ 1 / 256 := by
  have hpos : (0 : ℚ) < 2 ^ k := by positivity
  have h128 : (2 : ℚ) ^ 7 = 128 := by norm_num
  have hscale : (2 : ℚ) ^ 7 ≤ 2 ^ k := pow_le_pow_right₀ (by norm_num) hk
  have hrhe := roundHalfEven_abs_le (q * 2 ^ k)
  have hrw : (roundHalfEven (q * 2 ^ k) : ℚ) / 2 ^ k - q =
      ((roundHalfEven (q * 2 ^ k) : ℚ) - q * 2 ^ k) / 2 ^ k := by
    field_simp
    ring
  rw [hrw, abs_div, abs_of_pos hpos, div_le_iff₀ hpos]
  linarith

theorem toDouble_close (q : ℚ) (h0 : 0 < q) (h46 : q < 2 ^ 46) :
    |toDouble q - q| ≤ 1 / 256 := by
  unfold toDouble
  rw [if_neg (ne_of_gt h0), if_neg (not_lt.mpr (le_of_lt h0))]
  unfold toDoublePos
  by_cases h1 : (1 : ℚ) ≤ q
  · rw [if_pos h1]
    have hle : (2 : ℚ) ^ ilog2Up 1100 q ≤ q := two_pow_ilog2Up_le 1100 q h1
    have he45 : ilog2Up 1100 q ≤ 45 := by
      by_contra hcon
      push_neg at hcon
      have h46le : (2 : ℚ) ^ 46 ≤ 2 ^ ilog2Up 1100 q :=
        pow_le_pow_right₀ (by norm_num) (by omega)
      linarith
    rw [if_neg (by omega)]
    exact rhe_scale_close q (52 - ilog2Up 1100 q) (by omega)
  · rw [if_neg h1]
    exact rhe_scale_close q (52 + ilog2Down 1100 q) (by omega)

theorem roundHalfEven_toDouble_cents (N : Nat) (h : ((N : ℚ)) / 100 < 2 ^ 46) :
    roundHalfEven (toDouble ((N : ℚ) / 100) * 100) = (N : ℤ) := by
  rcases Nat.eq_zero_or_pos N with rfl | hN
  · have hz : ((0 : ℕ) : ℚ) / 100 = 0 := by norm_num
    rw [hz]
    have ht : toDouble 0 = 0 := by unfold toDouble; rw [if_pos rfl]
    rw [ht]
    have h0 : (0 : ℚ) * 100 = ((0 : ℕ) : ℚ) := by norm_num
    rw [h0, roundHalfEven_natCast]
  · have h0 : (0 : ℚ) < (N : ℚ) / 100 :=
      div_pos (by exact_mod_cast hN) (by norm_num)
    have hclose := toDouble_close _ h0 h
    apply roundHalfEven_eq_of_close
    have hterm : toDouble ((N : ℚ) / 100) * 100 - ((N : ℤ) : ℚ) =
        (toDouble ((N : ℚ) / 100) - (N : ℚ) / 100) * 100 := by
      push_cast
      ring
    rw [hterm, abs_mul]
    have habs : |(100 : ℚ)| = 100 := by norm_num
    rw [habs]
    linarith

theorem twoFrac_digits (f : Nat) : ∀ c ∈ twoFrac f, isDig c = true := by
  intro c hc
  unfold twoFrac at hc
  rcases List.mem_cons.mp hc with rfl | hc
  · exact isDig_digit10 _
  · rcases List.mem_cons.mp hc with rfl | hc
    · exact isDig_digit10 _
    · simp at hc

theorem fmtBR_cents_rhe (N F : Nat) (hF : F < 100) (q : ℚ)
    (hq : roundHalfEven (q * 100) = ((100 * N + F : ℕ) : ℤ)) :
    fmtBR q = brCanon N F := by
  unfold fmtBR enFormat
  rw [hq]
  rw [if_neg (not_lt.mpr (Int.natCast_nonneg _)), Int.natAbs_ofNat]
  have hdiv : (100 * N + F) / 100 = N := by omega
  have hmod : (100 * N + F) % 100 = F := by omega
  rw [hdiv, hmod, List.nil_append, swapXmap_append, swapXmap_grouped]
  unfold brCanon
  congr 1
  have hnoX : ∀ c ∈ '.' :: twoFrac F, c ≠ 'X' := by
    intro c hc
    rcases List.mem_cons.mp hc with rfl | hc
    · decide
    · exact (digit_props c (twoFrac_digits F c hc)).2.2.1
  rw [swapXmap_eq_map _ hnoX, List.map_cons, map_brSwap_digits _ (twoFrac_digits F)]
  rfl

theorem fmtBR_cents (N F : Nat) (hF : F < 100) (q : ℚ)
    (hq : q * 100 = ((100 * N + F : ℕ) : ℚ)) :
    fmtBR q = brCanon N F :=
  fmtBR_cents_rhe N F hF q (by rw [hq, roundHalfEven_natCast])

/-! ### Parsing a well-formed BR money string -/

theorem filter_ne_dot_digits (A : Str) (hA : ∀ c ∈ A, isDig c = true) :
    A.filter (fun c => c ≠ '.') = A :=
  List.filter_eq_self.mpr fun a ha => by simp [(digit_props a (hA a ha)).1]

theorem filter_dotted (gs : List Str) (hgs : ∀ g ∈ gs, ∀ c ∈ g, isDig c = true) :
    (dottedGroups gs).filter (fun c => c ≠ '.') = gs.flatten := by
  induction gs with
  | nil => rfl
  | cons g gs ih =>
    have hg : ∀ c ∈ g, isDig c = true := hgs g (by simp)
    show (('.' :: g) ++ dottedGroups gs).filter (fun c => c ≠ '.') = _
    rw [List.filter_append, List.filter_cons, if_neg (by decide),
      filter_ne_dot_digits g hg, ih fun x hx => hgs x (by simp [hx]),
      List.flatten_cons]

theorem map_comma_digits (A : Str) (hA : ∀ c ∈ A, isDig c = true) :
    A.map (fun c => if c = ',' then '.' else c) = A := by
  have hm : A.map (fun c => if c = ',' then '.' else c) = A.map id :=
    List.map_congr_left fun c hc => by simp [(digit_props c (hA c hc)).2.1]
  rw [hm, List.map_id]

theorem takeWhile_all {α : Type} (p : α → Bool) (A : List α)
    (h : ∀ c ∈ A, p c = true) : A.takeWhile p = A := by
  have := takeWhile_coe_append p A [] h
  simpa using this

theorem dropWhile_all {α : Type} (p : α → Bool) (A : List α)
    (h : ∀ c ∈ A, p c = true) : A.dropWhile p = [] := by
  have := dropWhile_coe_append p A [] h
  simpa using this

theorem valOfDigits_two (f1 f2 : Char) :
    valOfDigits [f1, f2] = charVal f2 + 10 * (charVal f1 + 10 * 0) := rfl

theorem valOfDigits_two_lt (f1 f2 : Char) (h1 : isDig f1 = true)
    (h2 : isDig f2 = true) : valOfDigits [f1, f2] < 100 := by
  have := charVal_lt10 f1 h1
  have := charVal_lt10 f2 h2
  rw [valOfDigits_two]
  omega

theorem twoFrac_val (f1 f2 : Char) (h1 : isDig f1 = true) (h2 : isDig f2 = true) :
    twoFrac (valOfDigits [f1, f2]) = [f1, f2] := by
  have hv1 := charVal_lt10 f1 h1
  have hv2 := charVal_lt10 f2 h2
  unfold twoFrac
  rw [valOfDigits_two]
  have hdiv : (charVal f2 + 10 * (charVal f1 + 10 * 0)) / 10 = charVal f1 := by omega
  have hmod : (charVal f2 + 10 * (charVal f1 + 10 * 0)) % 10 = charVal f2 := by omega
  rw [hdiv, hmod, digit10_charVal f1 h1, digit10_charVal f2 h2]

theorem ofRevDigits_lt :
    ∀ l : List Nat, (∀ d ∈ l, d < 10) → ofRevDigits l < 10 ^ l.length := by
  intro l
  induction l with
  | nil => intro _; simp [ofRevDigits]
  | cons d ds ih =>
    intro h
    have hd : d < 10 := h d (by simp)
    have hds := ih fun x hx => h x (by simp [hx])
    show d + 10 * ofRevDigits ds < 10 ^ (ds.length + 1)
    have hp : (10 : ℕ) ^ (ds.length + 1) = 10 * 10 ^ ds.length := by ring
    rw [hp]
    omega

theorem valOfDigits_lt (D : Str) (hD : ∀ c ∈ D, isDig c = true) :
    valOfDigits D < 10 ^ D.length := by
  unfold valOfDigits
  have hlen : ((D.map charVal).reverse).length = D.length := by simp
  rw [← hlen]
  apply ofRevDigits_lt
  intro d hd
  rw [List.mem_reverse] at hd
  obtain ⟨c, hc, rfl⟩ := List.mem_map.mp hd
  exact charVal_lt10 c (hD c hc)

theorem parseUnsignedDec_digits_dot (D fp : Str) (hD : ∀ c ∈ D, isDig c = true)
    (hfp : ∀ c ∈ fp, isDig c = true) (hne : D ≠ []) :
    parseUnsignedDec (D ++ '.' :: fp) =
      some ((valOfDigits D : ℚ) + (valOfDigits fp : ℚ) / (10 : ℚ) ^ fp.length) := by
  have htw : (D ++ '.' :: fp).takeWhile isDig = D := by
    rw [takeWhile_coe_append isDig D ('.' :: fp) hD,
      takeWhile_stop isDig '.' fp (by decide), List.append_nil]
  have hdw : (D ++ '.' :: fp).dropWhile isDig = '.' :: fp := by
    rw [dropWhile_coe_append isDig D ('.' :: fp) hD,
      dropWhile_stop isDig '.' fp (by decide)]
  simp only [parseUnsignedDec, htw, hdw, takeWhile_all isDig fp hfp,
    dropWhile_all isDig fp hfp]
  rw [if_pos ⟨trivial, Or.inl hne⟩]

theorem pyFloat_digits_dot (D fp : Str) (hD : ∀ c ∈ D, isDig c = true)
    (hfp : ∀ c ∈ fp, isDig c = true) (hne : D ≠ []) :
    pyFloat (D ++ '.' :: fp) =
      some (toDouble ((valOfDigits D : ℚ) + (valOfDigits fp : ℚ) / (10 : ℚ) ^ fp.length)) := by
  have hns : ∀ c ∈ D ++ '.' :: fp, isPySpace c = false := by
    intro c hc
    rcases List.mem_append.mp hc with hc | hc
    · exact (digit_props c (hD c hc)).2.2.2.2.2.2.1
    · rcases List.mem_cons.mp hc with rfl | hc
      · decide
      · exact (digit_props c (hfp c hc)).2.2.2.2.2.2.1
  unfold pyFloat
  rw [stripPy_no_space _ hns]
  obtain ⟨c0, D', rfl⟩ : ∃ c0 D', D = c0 :: D' := by
    cases D with
    | nil => exact absurd rfl hne
    | cons c t => exact ⟨c, t, rfl⟩
  have hc0 := digit_props c0 (hD c0 (by simp))
  have hplus : c0 ≠ '+' := hc0.2.2.2.1
  have hminus : c0 ≠ '-' := hc0.2.2.2.2.1
  split
  · next r heq =>
    injection heq with hc _
    exact absurd hc hplus
  · next r heq =>
    injection heq with hc _
    exact absurd hc hminus
  · rw [parseUnsignedDec_digits_dot (c0 :: D') fp hD hfp hne]
    rfl

theorem br_to_float_wf (g0 : Str) (gs : List Str) (f1 f2 : Char)
    (h0 : 1 ≤ g0.length) (hg0 : ∀ c ∈ g0, isDig c = true)
    (hgs : ∀ g ∈ gs, g.length = 3 ∧ ∀ c ∈ g, isDig c = true)
    (hf1 : isDig f1 = true) (hf2 : isDig f2 = true) :
    br_to_float (some (g0 ++ dottedGroups gs ++ ',' :: [f1, f2])) =
      toDouble ((valOfDigits (g0 ++ gs.flatten) : ℚ) + (valOfDigits [f1, f2] : ℚ) / 100) := by
  obtain ⟨c0, g0', rfl⟩ : ∃ c0 g0', g0 = c0 :: g0' := by
    cases g0 with
    | nil => simp at h0
    | cons c t => exact ⟨c, t, rfl⟩
  have hfdig : ∀ c ∈ [f1, f2], isDig c = true := by
    intro c hc
    rcases List.mem_cons.mp hc with rfl | hc
    · exact hf1
    · rcases List.mem_cons.mp hc with rfl | hc
      · exact hf2
      · simp at hc
  have hflat : ∀ c ∈ gs.flatten, isDig c = true := by
    intro c hc
    obtain ⟨g, hgm, hcg⟩ := List.mem_flatten.mp hc
    exact (hgs g hgm).2 c hcg
  have hDdig : ∀ c ∈ (c0 :: g0') ++ gs.flatten, isDig c = true := by
    intro c hc
    rcases List.mem_append.mp hc with hc | hc
    · exact hg0 c hc
    · exact hflat c hc
  show br_to_float (some ((c0 :: g0') ++ dottedGroups gs ++ ',' :: [f1, f2])) = _
  simp only [br_to_float]
  rw [if_neg (by simp)]
  have hfil : ((c0 :: g0') ++ dottedGroups gs ++ ',' :: [f1, f2]).filter
      (fun c => c ≠ '.') = (c0 :: g0') ++ gs.flatten ++ ',' :: [f1, f2] := by
    rw [List.filter_append, List.filter_append,
      filter_ne_dot_digits _ hg0, filter_dotted gs fun g hg => (hgs g hg).2]
    congr 1
    rw [List.filter_cons, if_pos (by decide), filter_ne_dot_digits _ hfdig]
  rw [hfil]
  have hmap : ((c0 :: g0') ++ gs.flatten ++ ',' :: [f1, f2]).map
      (fun c => if c = ',' then '.' else c) =
      ((c0 :: g0') ++ gs.flatten) ++ '.' :: [f1, f2] := by
    rw [List.map_append, List.map_append, map_comma_digits _ hg0,
      map_comma_digits _ hflat, List.map_cons, map_comma_digits _ hfdig]
    simp
  rw [hmap, pyFloat_digits_dot _ _ hDdig hfdig (by simp)]
  simp only [Option.getD_some]
  norm_num

/-! ### The `idxmax` fold: maximum value, first occurrence -/

theorem foldl_argmax_spec :
    ∀ (cs : List (Nat × Row)) (c : Nat × Row),
      (∀ x ∈ c :: cs, x.1 ≤ (cs.foldl (fun b x => if b.1 < x.1 then x else b) c).1) ∧
      (c :: cs).find?
          (fun x => x.1 == (cs.foldl (fun b x => if b.1 < x.1 then x else b) c).1) =
        some (cs.foldl (fun b x => if b.1 < x.1 then x else b) c) := by
  intro cs
  induction cs with
  | nil =>
    intro c
    refine ⟨?_, ?_⟩
    · intro x hx
      rcases List.mem_singleton.mp hx with rfl
      exact le_refl _
    · simp [List.find?]
  | cons x cs' ih =>
    intro c
    by_cases h : c.1 < x.1
    · have hstep : (x :: cs').foldl (fun b x => if b.1 < x.1 then x else b) c =
          cs'.foldl (fun b x => if b.1 < x.1 then x else b) x := by
        simp [List.foldl_cons, h]
      obtain ⟨ihmax, ihfind⟩ := ih x
      rw [hstep]
      have hxb : x.1 ≤ (cs'.foldl (fun b x => if b.1 < x.1 then x else b) x).1 :=
        ihmax x (by simp)
      refine ⟨?_, ?_⟩
      · intro y hy
        rcases List.mem_cons.mp hy with rfl | hy
        · exact le_of_lt (lt_of_lt_of_le h hxb)
        · exact ihmax y hy
      · rw [List.find?_cons_of_neg, ihfind]
        simp only [beq_iff_eq]
        omega
    · have hstep : (x :: cs').foldl (fun b x => if b.1 < x.1 then x else b) c =
          cs'.foldl (fun b x => if b.1 < x.1 then x else b) c := by
        simp [List.foldl_cons, h]
      obtain ⟨ihmax, ihfind⟩ := ih c
      rw [hstep]
      have hcb : c.1 ≤ (cs'.foldl (fun b x => if b.1 < x.1 then x else b) c).1 :=
        ihmax c (by simp)
      have hxc : x.1 ≤ c.1 := le_of_not_lt h
      refine ⟨?_, ?_⟩
      · intro y hy
        rcases List.mem_cons.mp hy with rfl | hy
        · exact hcb
        · rcases List.mem_cons.mp hy with rfl | hy
          · exact le_trans hxc hcb
          · exact ihmax y (by simp [hy])
      · by_cases hceq : c.1 = (cs'.foldl (fun b x => if b.1 < x.1 then x else b) c).1
        · have hfc : (c :: cs').find?
              (fun y => y.1 == (cs'.foldl (fun b x => if b.1 < x.1 then x else b) c).1) =
              some c := List.find?_cons_of_pos _ (by simpa using hceq)
          have : some c = some (cs'.foldl (fun b x => if b.1 < x.1 then x else b) c) := by
            rw [← hfc, ihfind]
          rw [List.find?_cons_of_pos _ (by simpa using hceq)]
          exact this
        · have hfc : (c :: cs').find?
              (fun y => y.1 == (cs'.foldl (fun b x => if b.1 < x.1 then x else b) c).1) =
              (cs').find?
                (fun y => y.1 == (cs'.foldl (fun b x => if b.1 < x.1 then x else b) c).1) :=
            List.find?_cons_of_neg _ (by simpa using hceq)
          have hxne : ¬x.1 = (cs'.foldl (fun b x => if b.1 < x.1 then x else b) c).1 := by
            omega
          rw [List.find?_cons_of_neg _ (by simpa using hceq),
            List.find?_cons_of_neg _ (by simpa using hxne), ← hfc, ihfind]

theorem dkey_pattern (r : Row) (k : Nat) (h : dkeyRow r = some k) :
    patternRow r = true := by
  unfold dkeyRow at h
  cases hd : r.data with
  | none => rw [hd] at h; simp at h
  | some s =>
    rw [hd] at h
    replace h : parseDate10 s = some k := h
    unfold patternRow
    rw [hd]
    unfold parseDate10 at h
    split at h
    · next a b c d e f g hch =>
      split at h
      · next hdig => exact hdig
      · simp at h
    · simp at h

theorem filterMap_dkeyPair_filter (rows : List Row) :
    (rows.filter patternRow).filterMap dkeyPair = rows.filterMap dkeyPair := by
  induction rows with
  | nil => rfl
  | cons r rows ih =>
    cases hp : patternRow r with
    | true =>
      rw [List.filter_cons_of_pos (by simp [hp]), List.filterMap_cons,
        List.filterMap_cons]
      cases hk : dkeyPair r with
      | none => simpa [hk] using ih
      | some p => simpa [hk] using ih
    | false =>
      have hnone : dkeyPair r = none := by
        unfold dkeyPair
        cases hk : dkeyRow r with
        | none => rfl
        | some k => exact absurd (dkey_pattern r k hk) (by simp [hp])
      rw [List.filter_cons_of_neg (by simp [hp]), List.filterMap_cons, hnone]
      exact ih

theorem filterMap_dkeyRow_eq (rows : List Row) :
    rows.filterMap dkeyRow = (rows.filterMap dkeyPair).map (·.1) := by
  induction rows with
  | nil => rfl
  | cons r rows ih =>
    rw [List.filterMap_cons, List.filterMap_cons]
    cases hk : dkeyRow r with
    | none => simpa [dkeyPair, hk] using ih
    | some k => simpa [dkeyPair, hk] using ih

theorem find?_dkey_eq (rows : List Row) (m : Nat) :
    rows.find? (fun r => dkeyRow r == some m) =
      ((rows.filterMap dkeyPair).find? (fun p => p.1 == m)).map (·.2) := by
  induction rows with
  | nil => rfl
  | cons r rows ih =>
    cases hk : dkeyRow r with
    | none =>
      have hfm : (r :: rows).filterMap dkeyPair = rows.filterMap dkeyPair := by
        rw [List.filterMap_cons]
        simp [dkeyPair, hk]
      rw [List.find?_cons_of_neg _ (by simp [hk]), hfm]
      exact ih
    | some k =>
      have hfm : (r :: rows).filterMap dkeyPair = (k, r) :: rows.filterMap dkeyPair := by
        rw [List.filterMap_cons]
        simp [dkeyPair, hk]
      rw [hfm]
      by_cases hkm : k = m
      · subst hkm
        have hf1 : (r :: rows).find? (fun r => dkeyRow r == some k) = some r := by
          apply List.find?_cons_of_pos
          simp [hk]
        have hf2 : ((k, r) :: rows.filterMap dkeyPair).find?
            (fun p => p.1 == k) = some (k, r) := by
          apply List.find?_cons_of_pos
          simp
        rw [hf1, hf2]
        rfl
      · have hf1 : (r :: rows).find? (fun r => dkeyRow r == some m) =
            rows.find? (fun r => dkeyRow r == some m) := by
          apply List.find?_cons_of_neg
          simp [hk, hkm]
        have hf2 : ((k, r) :: rows.filterMap dkeyPair).find? (fun p => p.1 == m) =
            (rows.filterMap dkeyPair).find? (fun p => p.1 == m) := by
          apply List.find?_cons_of_neg
          simp [hkm]
        rw [hf1, hf2]
        exact ih

theorem specMaxKey_argmax (cs : List (Nat × Row)) (c : Nat × Row) :
    specMaxKey ((c :: cs).map (·.1)) =
      some ((cs.foldl (fun b x => if b.1 < x.1 then x else b) c).1) := by
  induction cs generalizing c with
  | nil => rfl
  | cons x cs' ih =>
    have hk : Nat.max c.1 x.1 = (if c.1 < x.1 then x else c).1 := by
      by_cases h : c.1 < x.1
      · simp [h, Nat.max_eq_right (le_of_lt h)]
      · simp [h, Nat.max_eq_left (le_of_not_lt h)]
    show some (((x :: cs').map (·.1)).foldl Nat.max c.1) = _
    rw [List.map_cons, List.foldl_cons, hk]
    have := ih (if c.1 < x.1 then x else c)
    simp only [specMaxKey, List.map_cons] at this
    rw [this]
    simp [List.foldl_cons]

theorem spec_of_nil (rows : List Row) (hc : rows.filterMap dkeyPair = []) :
    specMostRecent rows = [] := by
  unfold specMostRecent
  rw [filterMap_dkeyRow_eq, hc]
  rfl

theorem spec_of_cands (rows : List Row) (c : Nat × Row) (cs : List (Nat × Row))
    (hc : rows.filterMap dkeyPair = c :: cs) :
    specMostRecent rows = [pickIdxmax c cs] := by
  have hfind : rows.find?
      (fun r => dkeyRow r ==
        some ((cs.foldl (fun b x => if b.1 < x.1 then x else b) c).1)) =
      some (pickIdxmax c cs) := by
    rw [find?_dkey_eq, hc, (foldl_argmax_spec cs c).2]
    rfl
  unfold specMostRecent
  rw [filterMap_dkeyRow_eq, hc, specMaxKey_argmax]
  show (match rows.find?
      (fun r => dkeyRow r ==
        some ((cs.foldl (fun b x => if b.1 < x.1 then x else b) c).1)) with
    | some r => [r]
    | none => []) = [pickIdxmax c cs]
  rw [hfind]

theorem t_eq_spec (rows : List Row) :
    filter_most_recent_t rows = specMostRecent rows := by
  unfold filter_most_recent_t
  cases hc : rows.filterMap dkeyPair with
  | nil => rw [spec_of_nil rows hc]
  | cons c cs => rw [spec_of_cands rows c cs hc]

/-! ### Regex search: first position wins -/

theorem searchFirst_eq_none {α : Type} (f : Str → Option α) :
    ∀ cs : Str, (∀ i, f (cs.drop i) = none) → searchFirst f cs = none := by
  intro cs
  induction cs with
  | nil => intro h; simpa using h 0
  | cons c cs ih =>
    intro h
    have h0 : f (c :: cs) = none := by simpa using h 0
    simp only [searchFirst, h0]
    exact ih fun i => by simpa using h (i + 1)

theorem searchFirst_eq_first {α : Type} (f : Str → Option α) :
    ∀ (cs : Str) (i : Nat), (f (cs.drop i)).isSome = true →
      (∀ j, j < i → f (cs.drop j) = none) → searchFirst f cs = f (cs.drop i) := by
  intro cs
  induction cs with
  | nil =>
    intro i _ _
    show f [] = f (List.drop i [])
    rw [List.drop_nil]
  | cons c cs ih =>
    intro i hi hj
    match i with
    | 0 =>
      simp only [List.drop_zero] at hi ⊢
      cases hf : f (c :: cs) with
      | none => rw [hf] at hi; simp at hi
      | some v => simp only [searchFirst, hf]
    | i + 1 =>
      have h0 : f (c :: cs) = none := by simpa using hj 0 (by omega)
      simp only [searchFirst, h0]
      exact ih i (by simpa using hi) fun j hji => by
        simpa using hj (j + 1) (by omega)

theorem captureUpToNext_spec :
    ∀ rest : Str, ∃ suffix, rest = captureUpToNext rest ++ suffix ∧
      (suffix = [] ∨ (matchNext6 suffix).isSome = true) ∧
      ∀ c2 s2, rest = c2 ++ s2 → (s2 = [] ∨ (matchNext6 s2).isSome = true) →
        (captureUpToNext rest).length ≤ c2.length := by
  intro rest
  induction rest with
  | nil =>
    refine ⟨[], by simp [captureUpToNext], Or.inl rfl, ?_⟩
    intro c2 s2 _ _
    simp [captureUpToNext]
  | cons c cs ih =>
    by_cases hm : (matchNext6 (c :: cs)).isSome = true
    · refine ⟨c :: cs, ?_, Or.inr hm, ?_⟩
      · simp [captureUpToNext, hm]
      · intro c2 s2 _ _
        simp [captureUpToNext, hm]
    · obtain ⟨sfx, heq, hor, hmin⟩ := ih
      have hcap : captureUpToNext (c :: cs) = c :: captureUpToNext cs := by
        simp [captureUpToNext, hm]
      refine ⟨sfx, ?_, hor, ?_⟩
      · rw [hcap, List.cons_append, ← heq]
      · intro c2 s2 hsplit hvalid
        cases c2 with
        | nil =>
          rcases hvalid with rfl | hv
          · simp at hsplit
          · rw [List.nil_append] at hsplit
            rw [← hsplit] at hv
            exact absurd hv hm
        | cons a c2' =>
          rw [List.cons_append] at hsplit
          injection hsplit with h1 h2
          rw [hcap]
          simpa using hmin c2' s2 h2 hvalid

/-! ### Error propagation through the aggregation pipeline -/

theorem filter_m_error (rows : List Row) (e : Str)
    (h : filter_most_recent_m rows = .error e) : e = argmaxErr := by
  unfold filter_most_recent_m at h
  split at h
  · simp at h
  · split at h
    · injection h with he
      exact he.symm
    · simp at h

theorem extract_error (texto e : Str)
    (h : extract_section5_from_text texto = .error e) : e = attrStripErr := by
  unfold extract_section5_from_text at h
  split at h
  · injection h with he
    exact he.symm
  · split at h
    · exact Except.noConfusion h
    · injection h with he
      exact he.symm

theorem processar_error (texto : Str) (e : Str)
    (h : processar_secao5_comparativo texto = .error e) :
    e = argmaxErr ∨ e = attrStripErr := by
  unfold processar_secao5_comparativo at h
  split at h
  · next e0 hex =>
    injection h with he
    subst he
    exact Or.inr (extract_error _ _ hex)
  · split at h
    · exact Except.noConfusion h
    · split at h
      · next hf =>
        injection h with he
        subst he
        exact Or.inl (filter_m_error _ _ hf)
      · exact Except.noConfusion h
      · exact Except.noConfusion h

/-! ### Head-character facts for the scan rules -/

theorem dateStartB_head (ln : Str) (h : dateStartB ln = true) :
    ∃ x t, ln = x :: t ∧ isDig x = true := by
  unfold dateStartB at h
  split at h
  · next a b c d e f g h8 t =>
    simp only [Bool.and_eq_true] at h
    exact ⟨a, _, rfl, h.1.1.1.1.1.1.1⟩
  · simp at h

theorem dateStartB_false_of_head (x : Char) (t : Str) (hx : isDig x = false) :
    dateStartB (x :: t) = false := by
  cases hd : dateStartB (x :: t) with
  | false => rfl
  | true =>
    obtain ⟨x', t', heq, hdig⟩ := dateStartB_head _ hd
    injection heq with h1 _
    subst h1
    rw [hdig] at hx
    cases hx

theorem agTok_head (ln : Str) (h : startsWithSeq agTok ln = true) :
    ∃ t, ln = 'A' :: t := by
  cases ln with
  | nil => exact absurd h (by decide)
  | cons c t =>
    have h' : (decide ('A' = c) && startsWithSeq ("guardando".toList) t) = true := h
    rw [Bool.and_eq_true] at h'
    have : 'A' = c := of_decide_eq_true h'.1
    exact ⟨t, by rw [← this]⟩

theorem not_dv_of_head (x : Char) (t : Str) (hne : lowerC x ≠ 'd') :
    startsWithSeq ("data valores".toList) ((x :: t).map lowerC) = false := by
  have hred : startsWithSeq ("data valores".toList) ((x :: t).map lowerC) =
      (decide ('d' = lowerC x) && startsWithSeq ("ata valores".toList) (t.map lowerC)) :=
    rfl
  rw [hred, decide_eq_false fun hh => hne hh.symm, Bool.false_and]

theorem lowerC_digit (c : Char) (h : isDig c = true) : lowerC c = c := by
  rcases isDig_cases c h with rfl | rfl | rfl | rfl | rfl | rfl | rfl | rfl | rfl | rfl <;>
    decide

theorem headerNoiseB_false (ln : Str)
    (hdv : startsWithSeq ("data valores".toList) (ln.map lowerC) = false)
    (h70 : hasSubSeq ("(70%)".toList) ln = false)
    (h30 : hasSubSeq ("(30%)".toList) ln = false) :
    headerNoiseB ln = false := by
  unfold headerNoiseB
  rw [hdv, h70, h30]
  rfl

theorem headerNoiseB_false_of_date (ln : Str) (hd : dateStartB ln = true)
    (h70 : hasSubSeq ("(70%)".toList) ln = false)
    (h30 : hasSubSeq ("(30%)".toList) ln = false) :
    headerNoiseB ln = false := by
  obtain ⟨x, t, rfl, hx⟩ := dateStartB_head ln hd
  refine headerNoiseB_false _ ?_ h70 h30
  refine not_dv_of_head x t ?_
  rw [lowerC_digit x hx]
  rcases isDig_cases x hx with rfl | rfl | rfl | rfl | rfl | rfl | rfl | rfl | rfl | rfl <;>
    decide

theorem headerNoiseB_false_of_pending (ln : Str) (hp : startsWithSeq agTok ln = true)
    (h70 : hasSubSeq ("(70%)".toList) ln = false)
    (h30 : hasSubSeq ("(30%)".toList) ln = false) :
    headerNoiseB ln = false := by
  obtain ⟨t, rfl⟩ := agTok_head ln hp
  exact headerNoiseB_false _ (not_dv_of_head 'A' t (by decide)) h70 h30

theorem dateStartB_false_of_pending (ln : Str) (hp : startsWithSeq agTok ln = true) :
    dateStartB ln = false := by
  obtain ⟨t, rfl⟩ := agTok_head ln hp
  exact dateStartB_false_of_head 'A' t (by decide)

/-! ### The scan consumes every line exactly once -/

theorem scan_partition_aux :
    ∀ (n : Nat) (lines : List Str), lines.length ≤ n →
      ((scanSteps lines).map Prod.snd).flatten = lines ∧
      (∀ s ∈ scanSteps lines, s.2 ≠ []) ∧
      parse_table lines = (scanSteps lines).filterMap stepRow := by
  intro n
  induction n with
  | zero =>
    intro lines h
    have : lines = [] := List.length_eq_zero.mp (Nat.le_zero.mp h)
    subst this
    exact ⟨rfl, by simp [scanSteps_nil], rfl⟩
  | succ n ih =>
    intro lines h
    match lines with
    | [] => exact ⟨rfl, by simp [scanSteps_nil], rfl⟩
    | ln :: rest =>
      have hr : rest.length ≤ n := by simpa using h
      cases hh : headerNoiseB ln with
      | true =>
        obtain ⟨ihj, ihne, ihp⟩ := ih rest hr
        rw [scanSteps_header ln rest hh, parse_table_header ln rest hh]
        refine ⟨by simp [ihj], ?_, by simpa [stepRow] using ihp⟩
        intro s hs
        rcases List.mem_cons.mp hs with rfl | hs
        · simp
        · exact ihne s hs
      | false =>
        cases hd : dateStartB ln with
        | true =>
          obtain ⟨ihj, ihne, ihp⟩ := ih rest hr
          rw [scanSteps_dated ln rest hh hd, parse_table_dated ln rest hh hd]
          refine ⟨by simp [ihj], ?_, by simpa [stepRow] using ihp⟩
          intro s hs
          rcases List.mem_cons.mp hs with rfl | hs
          · simp
          · exact ihne s hs
        | false =>
          cases hp : startsWithSeq agTok ln with
          | true =>
            obtain ⟨ihj, ihne, ihp⟩ :=
              ih (rest.dropWhile pendCont) (le_trans (length_dropWhile_le _ _) hr)
            rw [scanSteps_pending ln rest hh hd hp, parse_table_pending ln rest hh hd hp]
            refine ⟨?_, ?_, by simpa [stepRow] using ihp⟩
            · simp only [List.map_cons, List.flatten_cons, ihj]
              rw [List.cons_append, List.takeWhile_append_dropWhile]
            · intro s hs
              rcases List.mem_cons.mp hs with rfl | hs
              · simp
              · exact ihne s hs
          | false =>
            obtain ⟨ihj, ihne, ihp⟩ := ih rest hr
            rw [scanSteps_fallback ln rest hh hd hp, parse_table_fallback ln rest hh hd hp]
            refine ⟨by simp [ihj], ?_, by simpa [stepRow] using ihp⟩
            intro s hs
            rcases List.mem_cons.mp hs with rfl | hs
            · simp
            · exact ihne s hs

theorem extrair_error_nonempty (p : PDoc) (hp : errNonempty p = true) (e : Str)
    (h : extrair_dados_pdf p = .error e) : e ≠ [] := by
  unfold extrair_dados_pdf at h
  split at h
  · next eo hop =>
    injection h with he
    subst he
    unfold errNonempty at hp
    rw [hop] at hp
    simpa using hp
  · next pages hop =>
    split at h
    · next ep hproc =>
      injection h with he
      subst he
      rcases processar_error _ _ hproc with hcase | hcase <;> rw [hcase] <;> decide
    · simp at h

/-! ## The claims -/

set_option maxRecDepth 100000

/-- C1: for every row surfaced to callers — the tuple returned by
`processar_secao5_comparativo`, every row of the full tratamento table and the
selected latest record — the total field equals
`formatAmount(parseAmount(contractual) + parseAmount(succumbence))`; any
fourth money token captured by the classifier into the total slot is
overwritten by this recomputed sum before the row is surfaced. -/
theorem c1_total_recomputed :
    (∀ (texto : Str) (out : Str × Str × Str),
        processar_secao5_comparativo texto = .ok out →
        out.2.2 = float_to_br (addD (br_to_float (some out.1)) (br_to_float (some out.2.1)))) ∧
    (∀ lines : List Str, ∀ r ∈ tratamentoTable lines,
        r.total = fmtBR (addD ((br_money_to_float (some r.contratual)).getD 0)
          ((br_money_to_float (some r.sucumbencia)).getD 0))) ∧
    (∀ lines : List Str, ∀ r ∈ tratamentoLatest lines,
        r.total = fmtBR (addD ((br_money_to_float (some r.contratual)).getD 0)
          ((br_money_to_float (some r.sucumbencia)).getD 0))) := by
  refine ⟨?_, ?_, ?_⟩
  · intro texto out h
    unfold processar_secao5_comparativo at h
    split at h
    · exact Except.noConfusion h
    · split at h
      · injection h with h'
        subst h'
        with_unfolding_all decide
      · split at h
        · exact Except.noConfusion h
        · injection h with h'
          subst h'
          with_unfolding_all decide
        · injection h with h'
          subst h'
          rfl
  · intro lines r hr
    unfold tratamentoTable at hr
    obtain ⟨r0, _, rfl⟩ := List.mem_map.mp hr
    rfl
  · intro lines r hr
    unfold tratamentoLatest at hr
    obtain ⟨r0, _, rfl⟩ := List.mem_map.mp hr
    rfl

/-- Witness for C1 at a concrete document whose captured fourth token
(`999,99`) differs from the recomputed sum (`1.000,00`). -/
theorem c1_total_recomputed_witness :
    processar_secao5_comparativo
        "5. Comparativo dos Valores\n01/02/2024 Pag 1.000,00 300,00 700,00 999,99\n6. Observações".toList
      = .ok ("300,00".toList, "700,00".toList, "1.000,00".toList) ∧
    "1.000,00".toList =
      float_to_br (addD (br_to_float (some "300,00".toList))
        (br_to_float (some "700,00".toList))) :=
  ⟨by with_unfolding_all decide,
    c1_total_recomputed.1
      "5. Comparativo dos Valores\n01/02/2024 Pag 1.000,00 300,00 700,00 999,99\n6. Observações".toList
      ("300,00".toList, "700,00".toList, "1.000,00".toList)
      (by with_unfolding_all decide)⟩

/-- C2 counterexample: a table whose only row's date matches the
`dd/mm/yyyy` pattern but is not a valid calendar date makes the main.py
selector raise (the pandas `idxmax` error), instead of excluding the token
without an error as the claim states. -/
theorem c2_counterexample :
    filter_most_recent_m
        [⟨some "31/02/2024".toList, [], zeroMoney, zeroMoney, zeroMoney, zeroMoney⟩] =
      .error argmaxErr := by
  decide

/-- C2 as amended: the tratamento selector equals the specification selector
(maximum parsed date, ties to the first occurrence, invalid tokens excluded,
empty result when nothing parses). The main.py selector agrees whenever some
row's date parses, or no row prefix-matches the pattern; when pattern-matching
rows exist but none parses it raises instead of returning empty. -/
theorem c2_most_recent_amended :
    ∀ rows : List Row,
      filter_most_recent_t rows = specMostRecent rows ∧
      ((∃ r ∈ rows, (dkeyRow r).isSome = true) ∨ rows.filter patternRow = [] →
        filter_most_recent_m rows = .ok (specMostRecent rows)) ∧
      (rows.filter patternRow ≠ [] → (∀ r ∈ rows, dkeyRow r = none) →
        filter_most_recent_m rows = .error argmaxErr) := by
  intro rows
  refine ⟨t_eq_spec rows, ?_, ?_⟩
  · intro hcase
    rcases hcase with ⟨r, hr, hk⟩ | hempty
    · obtain ⟨k, hk⟩ := Option.isSome_iff_exists.mp hk
      have hpat : patternRow r = true := dkey_pattern r k hk
      have hrv : r ∈ rows.filter patternRow := List.mem_filter.mpr ⟨hr, hpat⟩
      have hvne : rows.filter patternRow ≠ [] := fun hcon => by
        rw [hcon] at hrv
        simp at hrv
      have hcne : (k, r) ∈ rows.filterMap dkeyPair :=
        List.mem_filterMap.mpr ⟨r, hr, by simp [dkeyPair, hk]⟩
      unfold filter_most_recent_m
      rw [if_neg (by simpa [List.isEmpty_iff] using hvne)]
      cases hc : (rows.filter patternRow).filterMap dkeyPair with
      | nil =>
        rw [filterMap_dkeyPair_filter] at hc
        rw [hc] at hcne
        simp at hcne
      | cons c cs =>
        rw [filterMap_dkeyPair_filter] at hc
        show Except.ok [pickIdxmax c cs] = Except.ok (specMostRecent rows)
        rw [spec_of_cands rows c cs hc]
    · unfold filter_most_recent_m
      rw [if_pos (by simp [hempty])]
      have hnil : rows.filterMap dkeyPair = [] := by
        rw [← filterMap_dkeyPair_filter, hempty]
        rfl
      rw [spec_of_nil rows hnil]
  · intro hne hall
    have hnil : (rows.filter patternRow).filterMap dkeyPair = [] := by
      rw [filterMap_dkeyPair_filter]
      exact List.filterMap_eq_nil_iff.mpr fun r hr => by simp [dkeyPair, hall r hr]
    unfold filter_most_recent_m
    rw [if_neg (by simpa [List.isEmpty_iff] using hne), hnil]

/-- Witness for C2 at the specification's example table (dates `01/02/2024`,
`15/03/2024` and one `Aguardando` row): both selectors pick the
`15/03/2024` row. -/
theorem c2_most_recent_witness :
    (∃ r ∈ [(⟨some "01/02/2024".toList, [], zeroMoney, zeroMoney, zeroMoney, zeroMoney⟩ : Row),
        ⟨some "15/03/2024".toList, [], zeroMoney, zeroMoney, zeroMoney, zeroMoney⟩,
        ⟨some agTok, [], zeroMoney, zeroMoney, zeroMoney, zeroMoney⟩],
      (dkeyRow r).isSome = true) ∧
    filter_most_recent_m
        [⟨some "01/02/2024".toList, [], zeroMoney, zeroMoney, zeroMoney, zeroMoney⟩,
          ⟨some "15/03/2024".toList, [], zeroMoney, zeroMoney, zeroMoney, zeroMoney⟩,
          ⟨some agTok, [], zeroMoney, zeroMoney, zeroMoney, zeroMoney⟩] =
      .ok (specMostRecent
        [⟨some "01/02/2024".toList, [], zeroMoney, zeroMoney, zeroMoney, zeroMoney⟩,
          ⟨some "15/03/2024".toList, [], zeroMoney, zeroMoney, zeroMoney, zeroMoney⟩,
          ⟨some agTok, [], zeroMoney, zeroMoney, zeroMoney, zeroMoney⟩]) ∧
    specMostRecent
        [⟨some "01/02/2024".toList, [], zeroMoney, zeroMoney, zeroMoney, zeroMoney⟩,
          ⟨some "15/03/2024".toList, [], zeroMoney, zeroMoney, zeroMoney, zeroMoney⟩,
          ⟨some agTok, [], zeroMoney, zeroMoney, zeroMoney, zeroMoney⟩] =
      [⟨some "15/03/2024".toList, [], zeroMoney, zeroMoney, zeroMoney, zeroMoney⟩] :=
  ⟨by decide,
    (c2_most_recent_amended _).2.1 (Or.inl (by decide)),
    by decide⟩

/-- C3 counterexample: a normalized line that begins with a `dd/mm/yyyy`
token but contains the header marker `(30%)` is skipped by the header-noise
rule, so the classifier emits no row for it, contradicting the claim's
"emits exactly one row". -/
theorem c3_counterexample :
    parse_table ["01/02/2024 x (30%) 1,00".toList] = [] := by
  decide

/-- C3 as amended: for every line beginning with a `dd/mm/yyyy` token that
does not contain the header markers `(70%)` or `(30%)`, the classifier emits
exactly one row: its date is the line's first whitespace token, its
description the stripped text before the first money token of the stripped
remainder (the whole remainder when none matches), and the money tokens fill
`principal`, `contratual`, `sucumbencia`, `total` left to right with `"0,00"`
for the unfilled slots; the specification's example line behaves as stated. -/
theorem c3_dated_row_amended :
    (∀ (ln : Str) (rest : List Str), dateStartB ln = true →
        hasSubSeq ("(70%)".toList) ln = false →
        hasSubSeq ("(30%)".toList) ln = false →
        parse_table (ln :: rest) = datedRowOf ln :: parse_table rest ∧
        datedRowOf ln =
          { data := some (ln.takeWhile fun c => !isPySpace c)
            desc := stripPy (descrBeforeMoney
              (stripPy (ln.drop (ln.takeWhile fun c => !isPySpace c).length)))
            principal := (findallMoney
              (stripPy (ln.drop (ln.takeWhile fun c => !isPySpace c).length))).getD 0 zeroMoney
            contratual := (findallMoney
              (stripPy (ln.drop (ln.takeWhile fun c => !isPySpace c).length))).getD 1 zeroMoney
            sucumbencia := (findallMoney
              (stripPy (ln.drop (ln.takeWhile fun c => !isPySpace c).length))).getD 2 zeroMoney
            total := (findallMoney
              (stripPy (ln.drop (ln.takeWhile fun c => !isPySpace c).length))).getD 3 zeroMoney }) ∧
    parse_table ["01/02/2024 Pagamento 1.000,00 300,00 700,00 1.000,00".toList] =
      [⟨some "01/02/2024".toList, "Pagamento".toList, "1.000,00".toList,
        "300,00".toList, "700,00".toList, "1.000,00".toList⟩] := by
  refine ⟨?_, by decide⟩
  intro ln rest hd h70 h30
  exact ⟨parse_table_dated ln rest (headerNoiseB_false_of_date ln hd h70 h30) hd, rfl⟩

/-- Witness for C3 at the specification's example line. -/
theorem c3_dated_row_witness :
    dateStartB "01/02/2024 Pagamento 1.000,00 300,00 700,00 1.000,00".toList = true ∧
    (parse_table ["01/02/2024 Pagamento 1.000,00 300,00 700,00 1.000,00".toList] =
        datedRowOf "01/02/2024 Pagamento 1.000,00 300,00 700,00 1.000,00".toList ::
          parse_table [] ∧
      datedRowOf "01/02/2024 Pagamento 1.000,00 300,00 700,00 1.000,00".toList =
        { data := some ("01/02/2024 Pagamento 1.000,00 300,00 700,00 1.000,00".toList.takeWhile
            fun c => !isPySpace c)
          desc := stripPy (descrBeforeMoney
            (stripPy ("01/02/2024 Pagamento 1.000,00 300,00 700,00 1.000,00".toList.drop
              ("01/02/2024 Pagamento 1.000,00 300,00 700,00 1.000,00".toList.takeWhile
                fun c => !isPySpace c).length)))
          principal := (findallMoney
            (stripPy ("01/02/2024 Pagamento 1.000,00 300,00 700,00 1.000,00".toList.drop
              ("01/02/2024 Pagamento 1.000,00 300,00 700,00 1.000,00".toList.takeWhile
                fun c => !isPySpace c).length))).getD 0 zeroMoney
          contratual := (findallMoney
            (stripPy ("01/02/2024 Pagamento 1.000,00 300,00 700,00 1.000,00".toList.drop
              ("01/02/2024 Pagamento 1.000,00 300,00 700,00 1.000,00".toList.takeWhile
                fun c => !isPySpace c).length))).getD 1 zeroMoney
          sucumbencia := (findallMoney
            (stripPy ("01/02/2024 Pagamento 1.000,00 300,00 700,00 1.000,00".toList.drop
              ("01/02/2024 Pagamento 1.000,00 300,00 700,00 1.000,00".toList.takeWhile
                fun c => !isPySpace c).length))).getD 2 zeroMoney
          total := (findallMoney
            (stripPy ("01/02/2024 Pagamento 1.000,00 300,00 700,00 1.000,00".toList.drop
              ("01/02/2024 Pagamento 1.000,00 300,00 700,00 1.000,00".toList.takeWhile
                fun c => !isPySpace c).length))).getD 3 zeroMoney }) :=
  ⟨by decide,
    (c3_dated_row_amended.1
      "01/02/2024 Pagamento 1.000,00 300,00 700,00 1.000,00".toList []
      (by decide) (by decide) (by decide))⟩

/-- C4 counterexample: a line beginning with `Aguardando` that contains the
header marker `(30%)` is skipped by the header-noise rule, so no pending row
is emitted, contradicting the claim's "emits exactly one row". -/
theorem c4_counterexample :
    parse_table ["Aguardando (30%)".toList] = [] := by
  decide

/-- C4 as amended: for every pending block whose opening line does not contain
the header markers `(70%)` or `(30%)`, the classifier consumes the opening
line and the maximal following run of lines that start neither a dated entry
nor a new pending block, and emits exactly one row with date `"Aguardando"`,
default money slots, and as description the consumed lines joined by single
spaces with the first occurrence of `"Aguardando "` removed; the
specification's two-line example collapses to one row as stated. -/
theorem c4_pending_block_amended :
    (∀ (ln : Str) (rest : List Str), startsWithSeq agTok ln = true →
        hasSubSeq ("(70%)".toList) ln = false →
        hasSubSeq ("(30%)".toList) ln = false →
        parse_table (ln :: rest) =
          { data := some agTok
            desc := replaceFirstSeq agTokSp []
              (ln ++ ((rest.takeWhile pendCont).map fun l => ' ' :: l).flatten)
            principal := zeroMoney
            contratual := zeroMoney
            sucumbencia := zeroMoney
            total := zeroMoney } :: parse_table (rest.dropWhile pendCont)) ∧
    parse_table ["Aguardando liberação".toList, "do valor judicial".toList] =
      [⟨some agTok, "liberação do valor judicial".toList,
        zeroMoney, zeroMoney, zeroMoney, zeroMoney⟩] := by
  refine ⟨?_, by decide⟩
  intro ln rest hp h70 h30
  exact parse_table_pending ln rest (headerNoiseB_false_of_pending ln hp h70 h30)
    (dateStartB_false_of_pending ln hp) hp

/-- Witness for C4 at the specification's two-line example. -/
theorem c4_pending_block_witness :
    startsWithSeq agTok "Aguardando liberação".toList = true ∧
    parse_table ["Aguardando liberação".toList, "do valor judicial".toList] =
      { data := some agTok
        desc := replaceFirstSeq agTokSp []
          ("Aguardando liberação".toList ++
            ((["do valor judicial".toList].takeWhile pendCont).map fun l => ' ' :: l).flatten)
        principal := zeroMoney
        contratual := zeroMoney
        sucumbencia := zeroMoney
        total := zeroMoney } ::
        parse_table (["do valor judicial".toList].dropWhile pendCont) :=
  ⟨by decide,
    c4_pending_block_amended.1 "Aguardando liberação".toList
      ["do valor judicial".toList] (by decide) (by decide) (by decide)⟩

/-- C5 counterexample: when the header occurs nowhere the locator does not
return a distinct absent result — nor an empty string — and when the header is
present but no section-6 header follows it does not return the span to the end
of text: in both cases the compiled alternation falls back to the bare `\Z`
branch, `m.group(1)` is `None`, and `.strip()` raises `AttributeError`. -/
theorem c5_counterexample :
    extract_section5_from_text "no section header anywhere".toList = .error attrStripErr ∧
    extract_section5_from_text "x 5. Comparativo dos Valores\nA 1,00\nmore".toList =
      .error attrStripErr := by
  decide

/-- C5 as amended: when the text contains the section-5 header and, after the
first occurrence, a section-6 header, the locator returns the span between the
first header and the first following section-6 position — the shortest capture
before a next-header position — trimmed of whitespace; in every other case
(header absent anywhere, or no section-6 header after it) the bare `\Z`
alternative of the compiled pattern matches, `m.group(1)` is `None`, and the
locator raises `AttributeError` instead of returning an absent state or an
empty string. -/
theorem c5_section_locator_amended :
    ∀ full : Str,
      ((∀ i, ¬ HeaderAt full i) → extract_section5_from_text full = .error attrStripErr) ∧
      (∀ i, HeaderAt full i → (∀ j, j < i → ¬ HeaderAt full j) →
        ∃ rest, matchHeaderAt (full.drop i) = some rest ∧
          (searchFirst matchNext6 rest = none →
            extract_section5_from_text full = .error attrStripErr) ∧
          ((searchFirst matchNext6 rest).isSome = true →
            ∃ suffix, rest = captureUpToNext rest ++ suffix ∧
              (suffix = [] ∨ (matchNext6 suffix).isSome = true) ∧
              (∀ c2 s2, rest = c2 ++ s2 → (s2 = [] ∨ (matchNext6 s2).isSome = true) →
                (captureUpToNext rest).length ≤ c2.length) ∧
              extract_section5_from_text full = .ok (stripPy (captureUpToNext rest)))) := by
  intro full
  constructor
  · intro hnone
    unfold extract_section5_from_text
    rw [searchFirst_eq_none matchHeaderAt full fun i =>
      Option.not_isSome_iff_eq_none.mp (hnone i)]
  · intro i hi hj
    obtain ⟨rest, hrest⟩ := Option.isSome_iff_exists.mp hi
    refine ⟨rest, hrest, ?_, ?_⟩
    · intro hn6
      unfold extract_section5_from_text
      rw [searchFirst_eq_first matchHeaderAt full i hi fun j hji =>
        Option.not_isSome_iff_eq_none.mp (hj j hji), hrest]
      show (if (searchFirst matchNext6 rest).isSome = true
          then Except.ok (stripPy (captureUpToNext rest))
          else Except.error attrStripErr) = Except.error attrStripErr
      rw [if_neg (by simp [hn6])]
    · intro hn6
      obtain ⟨suffix, heq, hor, hmin⟩ := captureUpToNext_spec rest
      refine ⟨suffix, heq, hor, hmin, ?_⟩
      unfold extract_section5_from_text
      rw [searchFirst_eq_first matchHeaderAt full i hi fun j hji =>
        Option.not_isSome_iff_eq_none.mp (hj j hji), hrest]
      show (if (searchFirst matchNext6 rest).isSome = true
          then Except.ok (stripPy (captureUpToNext rest))
          else Except.error attrStripErr) = Except.ok (stripPy (captureUpToNext rest))
      rw [if_pos hn6]

/-- Witness for C5 at the specification's test vector, plus the raising case. -/
theorem c5_section_locator_witness :
    HeaderAt "5. Comparativo dos Valores\nA\n6. Observações\nB".toList 0 ∧
    (∃ rest,
      matchHeaderAt ("5. Comparativo dos Valores\nA\n6. Observações\nB".toList.drop 0) =
        some rest ∧
      (searchFirst matchNext6 rest = none →
        extract_section5_from_text "5. Comparativo dos Valores\nA\n6. Observações\nB".toList =
          .error attrStripErr) ∧
      ((searchFirst matchNext6 rest).isSome = true →
        ∃ suffix, rest = captureUpToNext rest ++ suffix ∧
          (suffix = [] ∨ (matchNext6 suffix).isSome = true) ∧
          (∀ c2 s2, rest = c2 ++ s2 → (s2 = [] ∨ (matchNext6 s2).isSome = true) →
            (captureUpToNext rest).length ≤ c2.length) ∧
          extract_section5_from_text "5. Comparativo dos Valores\nA\n6. Observações\nB".toList =
            .ok (stripPy (captureUpToNext rest)))) ∧
    extract_section5_from_text "5. Comparativo dos Valores\nA\n6. Observações\nB".toList =
      .ok "A".toList ∧
    extract_section5_from_text "5. Comparativo dos Valores\nB".toList = .error attrStripErr :=
  ⟨by decide,
    (c5_section_locator_amended "5. Comparativo dos Valores\nA\n6. Observações\nB".toList).2
      0 (by decide) (fun j hj => absurd hj (by omega)),
    by decide, by decide⟩

/-- C6 counterexample: the round trip fails on a well-formed BR money string
just above the 53-bit significand range — `2 ^ 53 + 1` reais parses to the
double `2 ^ 53` and formats back one real lower. -/
theorem c6_counterexample :
    WellFormedBR "9.007.199.254.740.993,00".toList ∧
    float_to_br (br_to_float (some "9.007.199.254.740.993,00".toList)) =
      "9.007.199.254.740.992,00".toList ∧
    float_to_br (br_to_float (some "9.007.199.254.740.993,00".toList)) ≠
      "9.007.199.254.740.993,00".toList :=
  ⟨⟨['9'], [['0', '0', '7'], ['1', '9', '9'], ['2', '5', '4'], ['7', '4', '0'], ['9', '9', '3']],
      '0', '0', by decide, by decide, by decide, by decide, by decide, by decide, by decide,
      by decide⟩,
    by with_unfolding_all decide, by with_unfolding_all decide⟩

/-- C6 as amended: for every well-formed BR money string (standard 3-digit dot
grouping, comma, exactly two fractional digits) whose integer part has at most
13 digits — so its value is below `2 ^ 46`, where the nearest-double parse
error stays under half a cent — `float_to_br (br_to_float s) = s`: the
formatter inverts the parser on such strings. Above the 53-bit significand
range the round trip fails (see the counterexample). -/
theorem c6_roundtrip_amended :
    ∀ s : Str, WellFormedBR s →
      ((s.takeWhile fun c => c ≠ ',').filter fun c => c ≠ '.').length ≤ 13 →
      float_to_br (br_to_float (some s)) = s := by
  rintro s ⟨g0, gs, f1, f2, rfl, h0, h3, hg0, hgs, hf1, hf2, hlead⟩ hlen
  have hparse := br_to_float_wf g0 gs f1 f2 h0 hg0 hgs hf1 hf2
  have hF := valOfDigits_two_lt f1 f2 hf1 hf2
  have hflat : ∀ c ∈ gs.flatten, isDig c = true := by
    intro c hc
    obtain ⟨g, hgm, hcg⟩ := List.mem_flatten.mp hc
    exact (hgs g hgm).2 c hcg
  have hdotted : ∀ c ∈ dottedGroups gs, (fun c => decide (c ≠ ',')) c = true := by
    intro c hc
    unfold dottedGroups at hc
    obtain ⟨l, hl, hcl⟩ := List.mem_flatten.mp hc
    obtain ⟨g, hg, rfl⟩ := List.mem_map.mp hl
    rcases List.mem_cons.mp hcl with rfl | hcg
    · decide
    · exact decide_eq_true (digit_props c ((hgs g hg).2 c hcg)).2.1
  have htake : ((g0 ++ dottedGroups gs ++ ',' :: [f1, f2]).takeWhile
      fun c => c ≠ ',') = g0 ++ dottedGroups gs := by
    have hA : ∀ c ∈ g0 ++ dottedGroups gs, (fun c => decide (c ≠ ',')) c = true := by
      intro c hc
      rcases List.mem_append.mp hc with hc | hc
      · exact decide_eq_true (digit_props c (hg0 c hc)).2.1
      · exact hdotted c hc
    rw [takeWhile_coe_append _ (g0 ++ dottedGroups gs) (',' :: [f1, f2]) hA,
      takeWhile_stop _ ',' [f1, f2] (by decide), List.append_nil]
  rw [htake, List.filter_append, filter_ne_dot_digits g0 hg0,
    filter_dotted gs fun g hg => (hgs g hg).2, List.length_append] at hlen
  have hvalD : valOfDigits (g0 ++ gs.flatten) < 10 ^ 13 := by
    have hdig : ∀ c ∈ g0 ++ gs.flatten, isDig c = true := by
      intro c hc
      rcases List.mem_append.mp hc with hc | hc
      · exact hg0 c hc
      · exact hflat c hc
    calc valOfDigits (g0 ++ gs.flatten) < 10 ^ (g0 ++ gs.flatten).length :=
          valOfDigits_lt _ hdig
      _ ≤ 10 ^ 13 := Nat.pow_le_pow_right (by norm_num) (by rw [List.length_append]; omega)
  have hbound : ((100 * valOfDigits (g0 ++ gs.flatten) + valOfDigits [f1, f2] : ℕ) : ℚ) / 100 <
      2 ^ 46 := by
    rw [div_lt_iff₀ (by norm_num)]
    have hN : 100 * valOfDigits (g0 ++ gs.flatten) + valOfDigits [f1, f2] <
        7036874417766400 := by
      have h13 : (10 : ℕ) ^ 13 = 10000000000000 := by norm_num
      omega
    calc ((100 * valOfDigits (g0 ++ gs.flatten) + valOfDigits [f1, f2] : ℕ) : ℚ)
        < ((7036874417766400 : ℕ) : ℚ) := by exact_mod_cast hN
      _ = 2 ^ 46 * 100 := by norm_num
  have hv : (valOfDigits (g0 ++ gs.flatten) : ℚ) + (valOfDigits [f1, f2] : ℚ) / 100 =
      ((100 * valOfDigits (g0 ++ gs.flatten) + valOfDigits [f1, f2] : ℕ) : ℚ) / 100 := by
    push_cast
    ring
  have hrhe : roundHalfEven
      (br_to_float (some (g0 ++ dottedGroups gs ++ ',' :: [f1, f2])) * 100) =
      ((100 * valOfDigits (g0 ++ gs.flatten) + valOfDigits [f1, f2] : ℕ) : ℤ) := by
    rw [hparse, hv]
    exact roundHalfEven_toDouble_cents _ hbound
  have hfmt := fmtBR_cents_rhe (valOfDigits (g0 ++ gs.flatten)) (valOfDigits [f1, f2]) hF _ hrhe
  show fmtBR _ = _
  rw [hfmt]
  unfold brCanon
  have hDdig : ∀ c ∈ g0 ++ gs.flatten, isDig c = true := by
    intro c hc
    rcases List.mem_append.mp hc with hc | hc
    · exact hg0 c hc
    · obtain ⟨g, hgm, hcg⟩ := List.mem_flatten.mp hc
      exact (hgs g hgm).2 c hcg
  have hg0ne : g0 ≠ [] := by
    intro hcon
    rw [hcon] at h0
    simp at h0
  have hlead' : g0 ++ gs.flatten = ['0'] ∨ (g0 ++ gs.flatten).head? ≠ some '0' := by
    by_cases hz : g0.head? = some '0'
    · obtain ⟨hg0', hgs'⟩ := hlead hz
      subst hg0'
      subst hgs'
      exact Or.inl rfl
    · right
      obtain ⟨c0, g0', rfl⟩ : ∃ c0 g0', g0 = c0 :: g0' := by
        cases g0 with
        | nil => exact absurd rfl hg0ne
        | cons c t => exact ⟨c, t, rfl⟩
      simpa using hz
  have hne : g0 ++ gs.flatten ≠ [] := fun hcon => hg0ne (List.append_eq_nil.mp hcon).1
  have hIC : intChars (valOfDigits (g0 ++ gs.flatten)) = g0 ++ gs.flatten :=
    intChars_valOfDigits _ hDdig hlead' hne
  have hGG : groupedChars '.' (valOfDigits (g0 ++ gs.flatten)) = g0 ++ dottedGroups gs := by
    unfold groupedChars
    rw [hIC]
    exact group3_big '.' gs g0 hg0ne h3 fun g hg => (hgs g hg).1
  rw [hGG, twoFrac_val f1 f2 hf1 hf2, List.append_assoc]

/-- Witness for C6 at `"12.345,67"`, with its explicit decomposition into
groups `12` and `345` and fraction digits `6`, `7`, and its five-digit
integer part. -/
theorem c6_roundtrip_witness :
    WellFormedBR "12.345,67".toList ∧
    (("12.345,67".toList.takeWhile fun c => c ≠ ',').filter
      fun c => c ≠ '.').length ≤ 13 ∧
    float_to_br (br_to_float (some "12.345,67".toList)) = "12.345,67".toList :=
  ⟨⟨['1', '2'], [['3', '4', '5']], '6', '7', by decide, by decide, by decide,
      by decide, by decide, by decide, by decide, by decide⟩,
    by decide,
    c6_roundtrip_amended "12.345,67".toList
      ⟨['1', '2'], [['3', '4', '5']], '6', '7', by decide, by decide, by decide,
        by decide, by decide, by decide, by decide, by decide⟩
      (by decide)⟩

/-- C7: `parseAmount` (`br_to_float`) returns `0.0` — and, being total, never
raises — on the empty string, on `None` and on unparsable input such as
`"abc"`; tratamento's raw `br_money_to_float` returns `None` on the same
inputs, which its only callers immediately default to `0` (`fillna(0)`). -/
theorem c7_parse_defaults :
    br_to_float none = 0 ∧
    br_to_float (some []) = 0 ∧
    br_to_float (some "abc".toList) = 0 ∧
    br_money_to_float none = none ∧
    br_money_to_float (some ([] : Str)) = none ∧
    br_money_to_float (some "abc".toList) = none ∧
    (br_money_to_float none).getD 0 = 0 ∧
    (br_money_to_float (some ([] : Str))).getD 0 = 0 ∧
    (br_money_to_float (some "abc".toList)).getD 0 = 0 := by
  with_unfolding_all decide

/-- C8: the batch entry point returns one result per input document, in input
order; a document whose processing raises yields a record with the exception
text in the error field (non-empty whenever the external open failure message
is, and the internal raises carry the non-empty `idxmax` and locator
`AttributeError` messages) and default empty values elsewhere, and every other
document's record is exactly the one its own extraction produces. -/
theorem c8_batch :
    ∀ docs : List PDoc, (∀ p ∈ docs, errNonempty p = true) →
      (extrair_em_lote docs).length = docs.length ∧
      (∀ (i : Nat) (p : PDoc), docs.get? i = some p →
        ∃ reg, (extrair_em_lote docs).get? i = some reg ∧
          ((∃ d, extrair_dados_pdf p = .ok d ∧
              reg = ⟨d.arquivo, d.nome, d.processo, d.dataEnc, d.total, d.contratual,
                d.sucumbencia, []⟩) ∨
            (∃ e, extrair_dados_pdf p = .error e ∧
              reg = ⟨basename p.path, [], [], [], [], [], [], e⟩ ∧ reg.erro ≠ []))) := by
  intro docs hdocs
  constructor
  · exact List.length_map _ _
  · intro i p hp
    have hmem : p ∈ docs := List.get?_mem hp
    cases hx : extrair_dados_pdf p with
    | ok d =>
      refine ⟨⟨d.arquivo, d.nome, d.processo, d.dataEnc, d.total, d.contratual,
        d.sucumbencia, []⟩, ?_, Or.inl ⟨d, rfl, rfl⟩⟩
      show (docs.map _).get? i = _
      rw [List.get?_map, hp]
      simp [hx]
    | error e =>
      have hne : e ≠ [] := extrair_error_nonempty p (hdocs p hmem) e hx
      refine ⟨⟨basename p.path, [], [], [], [], [], [], e⟩, ?_,
        Or.inr ⟨e, rfl, rfl, hne⟩⟩
      show (docs.map _).get? i = _
      rw [List.get?_map, hp]
      simp [hx]

/-- Witness for C8: three documents where the second one's open raises
`"boom"`; the batch yields three records in order, the second carrying the
error and defaults while the first and third succeed. -/
theorem c8_batch_witness :
    (∀ p ∈ [(⟨"a/um.pdf".toList,
          .ok [⟨some "5. Comparativo dos Valores\n01/02/2024 Pag 1,00\n6. Observações".toList,
            []⟩]⟩ : PDoc),
        ⟨"a/dois.pdf".toList, .error "boom".toList⟩,
        ⟨"a/tres.pdf".toList,
          .ok [⟨some "5. Comparativo dos Valores\n6. Observações".toList, []⟩]⟩],
      errNonempty p = true) ∧
    (extrair_em_lote
        [⟨"a/um.pdf".toList,
            .ok [⟨some "5. Comparativo dos Valores\n01/02/2024 Pag 1,00\n6. Observações".toList,
              []⟩]⟩,
          ⟨"a/dois.pdf".toList, .error "boom".toList⟩,
          ⟨"a/tres.pdf".toList,
            .ok [⟨some "5. Comparativo dos Valores\n6. Observações".toList, []⟩]⟩]).length = 3 ∧
    (extrair_em_lote
        [⟨"a/um.pdf".toList,
            .ok [⟨some "5. Comparativo dos Valores\n01/02/2024 Pag 1,00\n6. Observações".toList,
              []⟩]⟩,
          ⟨"a/dois.pdf".toList, .error "boom".toList⟩,
          ⟨"a/tres.pdf".toList,
            .ok [⟨some "5. Comparativo dos Valores\n6. Observações".toList, []⟩]⟩]).get? 1 =
      some ⟨"dois.pdf".toList, [], [], [], [], [], [], "boom".toList⟩ ∧
    (∀ (i : Nat) (p : PDoc),
      [(⟨"a/um.pdf".toList,
          .ok [⟨some "5. Comparativo dos Valores\n01/02/2024 Pag 1,00\n6. Observações".toList,
            []⟩]⟩ : PDoc),
        ⟨"a/dois.pdf".toList, .error "boom".toList⟩,
        ⟨"a/tres.pdf".toList,
          .ok [⟨some "5. Comparativo dos Valores\n6. Observações".toList, []⟩]⟩].get? i =
        some p →
      ∃ reg, (extrair_em_lote
          [⟨"a/um.pdf".toList,
              .ok [⟨some "5. Comparativo dos Valores\n01/02/2024 Pag 1,00\n6. Observações".toList,
                []⟩]⟩,
            ⟨"a/dois.pdf".toList, .error "boom".toList⟩,
            ⟨"a/tres.pdf".toList,
              .ok [⟨some "5. Comparativo dos Valores\n6. Observações".toList, []⟩]⟩]).get? i =
          some reg ∧
        ((∃ d, extrair_dados_pdf p = .ok d ∧
            reg = ⟨d.arquivo, d.nome, d.processo, d.dataEnc, d.total, d.contratual,
              d.sucumbencia, []⟩) ∨
          (∃ e, extrair_dados_pdf p = .error e ∧
            reg = ⟨basename p.path, [], [], [], [], [], [], e⟩ ∧ reg.erro ≠ []))) :=
  ⟨by decide,
    (c8_batch _ (by decide)).1,
    by with_unfolding_all decide,
    (c8_batch _ (by decide)).2⟩

/-- C9: the table-builder scan consumes every input line exactly once — the
recorded consumption chunks concatenate, in order, to the whole input — every
step consumes at least one line (the cursor strictly advances, so the scan
terminates at the end of the sequence), and `parse_table` emits exactly the
rows of the recorded steps. -/
theorem c9_scan_partition :
    ∀ lines : List Str,
      ((scanSteps lines).map Prod.snd).flatten = lines ∧
      (∀ s ∈ scanSteps lines, s.2 ≠ []) ∧
      parse_table lines = (scanSteps lines).filterMap stepRow :=
  fun lines => scan_partition_aux lines.length lines (le_refl _)

/-- Witness for C9 on a concrete mixed input (header noise, a dated entry, a
two-line pending block, a fallback line). -/
theorem c9_scan_partition_witness :
    ((scanSteps ["Data Valores (R$)".toList, "01/02/2024 Pag 1,00".toList,
        "Aguardando liberação".toList, "do valor".toList, "solta".toList]).map
      Prod.snd).flatten =
      ["Data Valores (R$)".toList, "01/02/2024 Pag 1,00".toList,
        "Aguardando liberação".toList, "do valor".toList, "solta".toList] ∧
    (∀ s ∈ scanSteps ["Data Valores (R$)".toList, "01/02/2024 Pag 1,00".toList,
        "Aguardando liberação".toList, "do valor".toList, "solta".toList], s.2 ≠ []) ∧
    parse_table ["Data Valores (R$)".toList, "01/02/2024 Pag 1,00".toList,
        "Aguardando liberação".toList, "do valor".toList, "solta".toList] =
      (scanSteps ["Data Valores (R$)".toList, "01/02/2024 Pag 1,00".toList,
        "Aguardando liberação".toList, "do valor".toList, "solta".toList]).filterMap
        stepRow :=
  c9_scan_partition ["Data Valores (R$)".toList, "01/02/2024 Pag 1,00".toList,
    "Aguardando liberação".toList, "do valor".toList, "solta".toList]

/-- C10: in every dated-entry row the emitted date field is the line's entire
first whitespace-delimited token, which strictly extends past the matched
`dd/mm/yyyy` prefix when no space immediately follows it: the line
`"01/02/2024x pago"` yields the date `"01/02/2024x"`, not `"01/02/2024"`. -/
theorem c10_date_token :
    (∀ (ln : Str) (rest : List Str), headerNoiseB ln = false → dateStartB ln = true →
        parse_table (ln :: rest) = datedRowOf ln :: parse_table rest ∧
        (datedRowOf ln).data = some (ln.takeWhile fun c => !isPySpace c)) ∧
    (parse_table ["01/02/2024x pago".toList]).map (·.data) =
      [some "01/02/2024x".toList] ∧
    some "01/02/2024x".toList ≠ some "01/02/2024".toList := by
  refine ⟨?_, by decide, by decide⟩
  intro ln rest hh hd
  exact ⟨parse_table_dated ln rest hh hd, rfl⟩

/-- Witness for C10 at the line whose first token extends past the date. -/
theorem c10_date_token_witness :
    headerNoiseB "01/02/2024x pago".toList = false ∧
    dateStartB "01/02/2024x pago".toList = true ∧
    (parse_table ["01/02/2024x pago".toList] =
        datedRowOf "01/02/2024x pago".toList :: parse_table [] ∧
      (datedRowOf "01/02/2024x pago".toList).data =
        some ("01/02/2024x pago".toList.takeWhile fun c => !isPySpace c)) :=
  ⟨by decide, by decide,
    c10_date_token.1 "01/02/2024x pago".toList [] (by decide) (by decide)⟩

end PdfExcel

section Scratch
open PdfExcel
set_option maxRecDepth 100000

example : fmtBR 0 = "0,00".toList := by with_unfolding_all decide
example : fmtBR (addD (br_to_float (some "300,00".toList)) (br_to_float (some "700,00".toList)))
    = "1.000,00".toList := by with_unfolding_all decide
example : toDouble (3 / 2) = 3 / 2 := by with_unfolding_all decide
example : fmtBR (br_to_float (some "12.345,67".toList)) = "12.345,67".toList := by
  with_unfolding_all decide
example : br_to_float (some "abc".toList) = 0 := by with_unfolding_all decide
example : br_money_to_float (some " 1,5 ".toList) = some (3/2) := by
  with_unfolding_all decide
example : findallMoney "Pagamento 1.000,00 300,00 700,00 1.000,00".toList =
    ["1.000,00".toList, "300,00".toList, "700,00".toList, "1.000,00".toList] := by decide
example : findallMoney "X 1234,56".toList = ["234,56".toList] := by decide
example : findallMoney "123.45,67 45,67".toList = ["45,67".toList, "45,67".toList] := by decide
example : findallMoney "11,2345,67".toList = ["11,23".toList, "45,67".toList] := by decide
example : findallMoney "1.234,561,00".toList = ["1.234,56".toList, "1,00".toList] := by decide
example : descrBeforeMoney "X 1234,56".toList = "X 1".toList := by decide
example : searchFirst matchParteAt "Parte Autora: João da Silva | x".toList =
    some "João da Silva ".toList := by decide
example : searchFirst matchParteAt "parte autora(o)".toList = some "(o)".toList := by decide
example : searchFirst matchParteAt "parte autora:   ".toList = some " ".toList := by decide
example : searchFirst matchParteAt "parte autor x".toList = none := by decide
example : searchFirst matchEncerrA "em 01/02/2024 houve Encerramento com a Liberação".toList
    = some "01/02/2024".toList := by decide
example : searchFirst matchEncerrB "Encerramento  com a Libera 03-04/2025 x".toList
    = some "03-04/2025".toList := by decide
example : searchFirst matchEncerrA "01/02/2024\nEncerramento com a Libera".toList = none := by
  decide
example : extract_section5_from_text "x 5. Comparativo dos Valores\nA\n6. Observações\nB".toList
    = .ok "A".toList := by decide
example : extract_section5_from_text "nothing here".toList = .error attrStripErr := by decide
example : extract_section5_from_text "5. Comparativo dos Valores\nA".toList =
    .error attrStripErr := by decide
example : parse_table ["01/02/2024 Pagamento 1.000,00 300,00 700,00 1.000,00".toList] =
    [⟨some "01/02/2024".toList, "Pagamento".toList, "1.000,00".toList, "300,00".toList,
      "700,00".toList, "1.000,00".toList⟩] := by decide
example : parse_table ["Aguardando liberação".toList, "do valor judicial".toList] =
    [⟨some "Aguardando".toList, "liberação do valor judicial".toList,
      zeroMoney, zeroMoney, zeroMoney, zeroMoney⟩] := by decide
example : parse_table ["01/02/2024 juros (30%) 1,00".toList] = [] := by decide
example : filter_most_recent_t [⟨some "31/02/2024".toList, [], zeroMoney, zeroMoney,
    zeroMoney, zeroMoney⟩] = [] := by decide
example : filter_most_recent_m
    [⟨some "01/02/2024".toList, [], zeroMoney, zeroMoney, zeroMoney, zeroMoney⟩,
     ⟨some "15/03/2024".toList, [], zeroMoney, zeroMoney, zeroMoney, zeroMoney⟩,
     ⟨some agTok, [], zeroMoney, zeroMoney, zeroMoney, zeroMoney⟩]
    = .ok [⟨some "15/03/2024".toList, [], zeroMoney, zeroMoney, zeroMoney, zeroMoney⟩] := by
  decide
example : processar_secao5_comparativo
    "5. Comparativo dos Valores\n01/02/2024 Pag 1.000,00 300,00 700,00 999,99\n6. Observações".toList
    = .ok ("300,00".toList, "700,00".toList, "1.000,00".toList) := by
  with_unfolding_all decide
example : parseDate10 "29/02/2024".toList = some 20240229 := by decide
example : parseDate10 "29/02/2023".toList = none := by decide
example : parseDate10 "01/02/2024x".toList = none := by decide
end Scratch
